import Mathlib

/-!
Student Registration System: a verification development of `script.js`.

A shallow embedding of the roster editor (`script.js`): the validators, the
submit / reset / edit / delete handlers and the `localStorage` persistence,
followed by theorems about them.

Modelling conventions.
* A JavaScript string is a `List Char` (`Str`).  Lone UTF-16 surrogates are not
  representable; every string the validators accept in the four form fields is
  treated code point by code point, which agrees with the code-unit view of the
  regular expressions used here.
* The array `students` is a `List (Option Student)`; `none` is an empty slot
  (a hole) of a sparse array, which the assignment `students[editIndex] = ...`
  creates when `editIndex` lies beyond the end of the array.
* A handler returns the state it leaves behind together with a `Completion`
  telling whether it returned normally or threw.
* `editIndex` is an `Int`; it is `-1` or an index (`step_invariant`), so the
  index used by `students[editIndex] = ...` is its `toNat`.
* `JSON.stringify` and `JSON.parse` are platform functions; they are modelled
  by `stringify`, for arrays of student objects, and by a recursive-descent
  parser `jsonParse` over the JSON grammar.  The strings that `JSON.parse`
  builds are kept as UTF-16 code units (`JStr`), and an object has one
  property for each name, in the order of its own property keys.  `localStorage` is a `Store`: the
  value under `LS_KEY` and the longest value a write accepts, `setItem`
  throwing when the value is longer.
* Rendering (`renderTable`), the text of the submit button and the location
  hash do not feed back into the roster and are left out; `escapeHtml` is
  modelled on strings, where `String(unsafe)` is the identity.
-/

namespace StudentRegistration

/-- A JavaScript string, as the list of its characters. -/
abbrev Str := List Char

/-! ## Character classes -/

/-- The characters matched by `\s` in a regular expression and removed by
`String.prototype.trim`: ECMAScript WhiteSpace and LineTerminator. -/
def isWhiteSpace (c : Char) : Bool :=
  let n := c.toNat
  n == 0x09 || n == 0x0A || n == 0x0B || n == 0x0C || n == 0x0D || n == 0x20 ||
  n == 0xA0 || n == 0x1680 || (0x2000 ≤ n && n ≤ 0x200A) ||
  n == 0x2028 || n == 0x2029 || n == 0x202F || n == 0x205F || n == 0x3000 || n == 0xFEFF

/-- The class `[A-Za-z]`. -/
def isAsciiLetter (c : Char) : Bool :=
  let n := c.toNat
  (0x41 ≤ n && n ≤ 0x5A) || (0x61 ≤ n && n ≤ 0x7A)

/-- The class `\d`, that is `[0-9]`. -/
def isDigit (c : Char) : Bool :=
  let n := c.toNat
  0x30 ≤ n && n ≤ 0x39

/-- The class `[A-Za-z\s]` of `isOnlyLetters`. -/
def clsLetterOrSpace (c : Char) : Bool := isAsciiLetter c || isWhiteSpace c

/-- The class `[^\s@]` of `isValidEmail`. -/
def clsNotSpaceAt (c : Char) : Bool := !(isWhiteSpace c) && !(c == '@')

/-! ## `trim` and the regular expressions -/

/-- The method `String.prototype.trim`: white space is removed from both ends. -/
def trim (s : Str) : Str :=
  ((s.dropWhile isWhiteSpace).reverse.dropWhile isWhiteSpace).reverse

/-- One item of an anchored pattern `^ item item ... $`: either a single
character of a class, or `class+`, one or more characters of a class. -/
inductive Item where
  | one (p : Char → Bool)
  | many1 (p : Char → Bool)

/-- The test `/^items$/.test(s)`: whether the whole of `s` can be split along the items
(a backtracking matcher; `test` only asks whether some split exists). -/
def matchItems : List Item → Str → Bool
  | [], [] => true
  | [], _ :: _ => false
  | _ :: _, [] => false
  | Item.one p :: rest, c :: s => p c && matchItems rest s
  | Item.many1 p :: rest, c :: s =>
      p c && (matchItems rest s || matchItems (Item.many1 p :: rest) s)

/-- The pattern `/^[A-Za-z\s]+$/`. -/
def reOnlyLetters : List Item := [Item.many1 clsLetterOrSpace]

/-- The pattern `/^\d+$/`. -/
def reOnlyNumbers : List Item := [Item.many1 isDigit]

/-- The pattern `/^[^\s@]+@[^\s@]+\.[^\s@]+$/`. -/
def reEmail : List Item :=
  [Item.many1 clsNotSpaceAt, Item.one (fun c => c == '@'), Item.many1 clsNotSpaceAt,
   Item.one (fun c => c == '.'), Item.many1 clsNotSpaceAt]

/-- The validator `isOnlyLetters(str)`: `/^[A-Za-z\s]+$/.test(str.trim())`. -/
def isOnlyLetters (str : Str) : Bool := matchItems reOnlyLetters (trim str)

/-- The validator `isOnlyNumbers(str)`: `/^\d+$/.test(str.trim())`. -/
def isOnlyNumbers (str : Str) : Bool := matchItems reOnlyNumbers (trim str)

/-- The validator `isValidEmail(str)`: `/^[^\s@]+@[^\s@]+\.[^\s@]+$/.test(str.trim())`. -/
def isValidEmail (str : Str) : Bool := matchItems reEmail (trim str)

/-! ## Records, form and error nodes -/

/-- A student record `{ name, studentId, email, contact }`. -/
structure Student where
  name : Str
  studentId : Str
  email : Str
  contact : Str
  deriving DecidableEq, Repr

/-- The values of the four form inputs (`nameInput.value`, `idInput.value`,
`emailInput.value`, `contactInput.value`). -/
structure Input where
  name : Str
  studentId : Str
  email : Str
  contact : Str
  deriving DecidableEq, Repr

/-- The text of the four error nodes. -/
structure Errors where
  nameError : Str
  idError : Str
  emailError : Str
  contactError : Str
  deriving DecidableEq, Repr

/-- The helper `clearErrors()`: every error node is set to the empty string. -/
def clearErrors : Errors := ⟨[], [], [], []⟩

/-- The form after `form.reset()`: every input is empty. -/
def emptyForm : Input := ⟨[], [], [], []⟩

/-! ## JSON: `JSON.stringify` of the roster and `JSON.parse` -/

/-- A string value as `JSON.parse` builds it: the sequence of its UTF-16 code
units, so that an escape of a lone surrogate has a value too. -/
abbrev JStr := List Nat

/-- The UTF-16 code units of a character: one unit in the basic plane, a
surrogate pair above it. -/
def utf16Char (c : Char) : JStr :=
  if c.toNat < 0x10000 then [c.toNat]
  else [0xD800 + (c.toNat - 0x10000) / 0x400, 0xDC00 + (c.toNat - 0x10000) % 0x400]

/-- The UTF-16 code units of a string. -/
def utf16 : Str → JStr
  | [] => []
  | c :: s => utf16Char c ++ utf16 s

/-- A value produced by `JSON.parse`.  A number is kept as its lexeme, a
string and a property name as their code units, and the members of an object
come in the order of its own property keys. -/
inductive JVal where
  | null
  | bool (b : Bool)
  | num (lexeme : Str)
  | str (s : JStr)
  | arr (xs : List JVal)
  | obj (members : List (JStr × JVal))

/-- Lower-case hexadecimal digit of a number below 16. -/
def hexDigit (n : Nat) : Char :=
  if n < 10 then Char.ofNat (0x30 + n) else Char.ofNat (0x57 + n)

/-- The JSON text of one character inside a string literal (QuoteJSONString). -/
def quoteChar (c : Char) : Str :=
  if c = '"' then ['\\', '"']
  else if c = '\\' then ['\\', '\\']
  else if c.toNat = 0x08 then ['\\', 'b']
  else if c.toNat = 0x09 then ['\\', 't']
  else if c.toNat = 0x0A then ['\\', 'n']
  else if c.toNat = 0x0C then ['\\', 'f']
  else if c.toNat = 0x0D then ['\\', 'r']
  else if c.toNat < 0x20 then
    ['\\', 'u', '0', '0', hexDigit (c.toNat / 16), hexDigit (c.toNat % 16)]
  else [c]

/-- The characters of a string literal after its opening quote: the escaped
characters and the closing quote. -/
def quoteChars : Str → Str
  | [] => ['"']
  | c :: s => quoteChar c ++ quoteChars s

/-- The text of `JSON.stringify` of a string. -/
def quoteJSONString (s : Str) : Str := '"' :: quoteChars s

/-- The text of `JSON.stringify` of a student object; the properties come in creation
order `name, studentId, email, contact`. -/
def stringifyStudent (s : Student) : Str :=
  "\x7b\"name\":".toList ++ quoteJSONString s.name ++
  ",\"studentId\":".toList ++ quoteJSONString s.studentId ++
  ",\"email\":".toList ++ quoteJSONString s.email ++
  ",\"contact\":".toList ++ quoteJSONString s.contact ++ ['}']

/-- The text of `JSON.stringify` of an array element; an empty slot is written `null`. -/
def stringifyElem : Option Student → Str
  | none => "null".toList
  | some s => stringifyStudent s

/-- The elements of an array separated by commas, with the closing bracket. -/
def stringifyElems : List (Option Student) → Str
  | [] => [']']
  | [x] => stringifyElem x ++ [']']
  | x :: y :: rest => stringifyElem x ++ ',' :: stringifyElems (y :: rest)

/-- The call `JSON.stringify(students)`. -/
def stringify (students : List (Option Student)) : Str := '[' :: stringifyElems students

/-- JSON white space: space, tab, line feed, carriage return. -/
def isJsonWs (c : Char) : Bool :=
  c.toNat == 0x20 || c.toNat == 0x09 || c.toNat == 0x0A || c.toNat == 0x0D

/-- Skip JSON white space. -/
def skipWs (s : Str) : Str := s.dropWhile isJsonWs

/-- Value of a hexadecimal digit. -/
def hexVal (c : Char) : Option Nat :=
  let n := c.toNat
  if 0x30 ≤ n ∧ n ≤ 0x39 then some (n - 0x30)
  else if 0x61 ≤ n ∧ n ≤ 0x66 then some (n - 0x57)
  else if 0x41 ≤ n ∧ n ≤ 0x46 then some (n - 0x37)
  else none

/-- The character denoted by the escape `\e`, for the single-character escapes. -/
def unescape (e : Char) : Option Char :=
  if e = '"' then some '"'
  else if e = '\\' then some '\\'
  else if e = '/' then some '/'
  else if e = 'b' then some (Char.ofNat 0x08)
  else if e = 'f' then some (Char.ofNat 0x0C)
  else if e = 'n' then some (Char.ofNat 0x0A)
  else if e = 'r' then some (Char.ofNat 0x0D)
  else if e = 't' then some (Char.ofNat 0x09)
  else none

/-- The code unit denoted by a four-digit escape, from its hexadecimal digits. -/
def unicodeEscape (a b c d : Char) : Option Nat :=
  match hexVal a, hexVal b, hexVal c, hexVal d with
  | some x, some y, some z, some w => some (((x * 16 + y) * 16 + z) * 16 + w)
  | _, _, _, _ => none

/-- Parse a string literal from just after its opening quote; the result is
the string value, as code units, and the input that follows the closing
quote.  A character written as it is gives its UTF-16 units, an escape gives
the one unit it denotes. -/
def parseStringBody : Str → Option (JStr × Str)
  | [] => none
  | c :: rest =>
    if c = '"' then some ([], rest)
    else if c = '\\' then
      match rest with
      | [] => none
      | e :: rest1 =>
        if e = 'u' then
          match rest1 with
          | a :: b :: x :: d :: rest2 =>
            match unicodeEscape a b x d, parseStringBody rest2 with
            | some u, some (s, r) => some (u :: s, r)
            | _, _ => none
          | _ => none
        else
          match unescape e, parseStringBody rest1 with
          | some ch, some (s, r) => some (ch.toNat :: s, r)
          | _, _ => none
    else if c.toNat < 0x20 then none
    else
      match parseStringBody rest with
      | some (s, r) => some (utf16Char c ++ s, r)
      | none => none

/-- One or more digits at the head of the input. -/
def parseDigits1 (s : Str) : Option (Str × Str) :=
  if s.takeWhile isDigit = [] then none else some (s.takeWhile isDigit, s.dropWhile isDigit)

/-- The integer part of a number: `0` or a non-zero digit followed by digits. -/
def parseInt (s : Str) : Option (Str × Str) :=
  match s with
  | [] => none
  | c :: r =>
    if c = '0' then some (['0'], r)
    else if isDigit c then some (c :: r.takeWhile isDigit, r.dropWhile isDigit)
    else none

/-- The optional fraction `.digits` of a number. -/
def parseFrac (s : Str) : Option (Str × Str) :=
  match s with
  | [] => some ([], [])
  | c :: r =>
    if c = '.' then (parseDigits1 r).map (fun p => ('.' :: p.1, p.2))
    else some ([], c :: r)

/-- The optional exponent `e`, sign, digits of a number. -/
def parseExp (s : Str) : Option (Str × Str) :=
  match s with
  | [] => some ([], [])
  | c :: r =>
    if c = 'e' ∨ c = 'E' then
      match r with
      | [] => none
      | g :: r1 =>
        if g = '+' ∨ g = '-' then (parseDigits1 r1).map (fun p => (c :: g :: p.1, p.2))
        else (parseDigits1 (g :: r1)).map (fun p => (c :: p.1, p.2))
    else some ([], c :: r)

/-- The optional minus sign of a number, and the input after it. -/
def splitSign (s : Str) : Str × Str :=
  match s with
  | [] => ([], [])
  | c :: r => if c = '-' then (['-'], r) else ([], c :: r)

/-- A JSON number: its lexeme and the rest of the input. -/
def parseNumber (s : Str) : Option (Str × Str) :=
  match parseInt (splitSign s).2 with
  | none => none
  | some (i, r1) =>
    match parseFrac r1 with
    | none => none
    | some (f, r2) =>
      match parseExp r2 with
      | none => none
      | some (e, r3) => some ((splitSign s).1 ++ i ++ f ++ e, r3)

/-- Consume the keyword `kw` at the head of the input. -/
def parseKeyword (kw : Str) (v : JVal) (s : Str) : Option (JVal × Str) :=
  if kw.isPrefixOf s then some (v, s.drop kw.length) else none

/-- The array index a property name denotes, if any: a canonical decimal
numeral (no leading zero) of a number up to `2^32 - 2`. -/
def arrayIndex (key : JStr) : Option Nat :=
  let value := key.foldl (fun acc u => acc * 10 + (u - 0x30)) 0
  if key ≠ [] ∧ key.all (fun u => decide (0x30 ≤ u ∧ u ≤ 0x39)) = true ∧
      (key.head? ≠ some 0x30 ∨ key.length = 1) ∧ value < 4294967295 then some value
  else none

/-- Define the property `key` with value `v`: a property that exists keeps
its place and takes the new value, a new property goes to the end. -/
def setMember (key : JStr) (v : JVal) : List (JStr × JVal) → List (JStr × JVal)
  | [] => [(key, v)]
  | (k, w) :: rest => if k = key then (k, v) :: rest else (k, w) :: setMember key v rest

/-- Insert a property whose name is the array index `i` among such
properties, in ascending order of the index. -/
def insertIndexed (i : Nat) (member : JStr × JVal) :
    List (Nat × (JStr × JVal)) → List (Nat × (JStr × JVal))
  | [] => [(i, member)]
  | (j, m) :: rest =>
    if i ≤ j then (i, member) :: (j, m) :: rest else (j, m) :: insertIndexed i member rest

/-- The properties whose names are array indices, in ascending index order. -/
def indexedMembers : List (JStr × JVal) → List (Nat × (JStr × JVal))
  | [] => []
  | (k, v) :: rest =>
    match arrayIndex k with
    | some i => insertIndexed i (k, v) (indexedMembers rest)
    | none => indexedMembers rest

/-- The members of the object that `JSON.parse` builds from the members of
the text: each member defines a property in turn, so a repeated name keeps
one property with the last value; the own property keys come with the array
indices first, in ascending order, then the other names in creation order. -/
def objectMembers (raw : List (JStr × JVal)) : List (JStr × JVal) :=
  let props := raw.foldl (fun acc m => setMember m.1 m.2 acc) []
  (indexedMembers props).map (fun p => p.2) ++
    props.filter (fun m => (arrayIndex m.1).isNone)

mutual
/-- Parse one JSON value, skipping leading white space; `fuel` bounds the
number of nested calls. -/
def parseValue : Nat → Str → Option (JVal × Str)
  | 0, _ => none
  | fuel + 1, s =>
    match skipWs s with
    | [] => none
    | c :: r =>
      if c = '"' then (parseStringBody r).map (fun p => (JVal.str p.1, p.2))
      else if c = '[' then
        match skipWs r with
        | [] => none
        | d :: r1 =>
          if d = ']' then some (JVal.arr [], r1)
          else (parseElems fuel (d :: r1)).map (fun p => (JVal.arr p.1, p.2))
      else if c = '{' then
        match skipWs r with
        | [] => none
        | d :: r1 =>
          if d = '}' then some (JVal.obj [], r1)
          else (parseMembers fuel (d :: r1)).map (fun p => (JVal.obj (objectMembers p.1), p.2))
      else if c = 't' then parseKeyword "true".toList (JVal.bool true) (c :: r)
      else if c = 'f' then parseKeyword "false".toList (JVal.bool false) (c :: r)
      else if c = 'n' then parseKeyword "null".toList JVal.null (c :: r)
      else (parseNumber (c :: r)).map (fun p => (JVal.num p.1, p.2))
/-- Parse `value (, value)* ]`. -/
def parseElems : Nat → Str → Option (List JVal × Str)
  | 0, _ => none
  | fuel + 1, s =>
    match parseValue fuel s with
    | none => none
    | some (v, r) =>
      match skipWs r with
      | [] => none
      | c :: r1 =>
        if c = ',' then (parseElems fuel r1).map (fun p => (v :: p.1, p.2))
        else if c = ']' then some ([v], r1)
        else none
/-- Parse `string : value (, string : value)* }`: the members as written, in
the order of the text. -/
def parseMembers : Nat → Str → Option (List (JStr × JVal) × Str)
  | 0, _ => none
  | fuel + 1, s =>
    match skipWs s with
    | [] => none
    | q :: r =>
      if q = '"' then
        match parseStringBody r with
        | none => none
        | some (key, r1) =>
          match skipWs r1 with
          | [] => none
          | c :: r2 =>
            if c = ':' then
              match parseValue fuel r2 with
              | none => none
              | some (v, r3) =>
                match skipWs r3 with
                | [] => none
                | d :: r4 =>
                  if d = ',' then (parseMembers fuel r4).map (fun p => ((key, v) :: p.1, p.2))
                  else if d = '}' then some ([(key, v)], r4)
                  else none
            else none
      else none
end

/-- The call `JSON.parse(raw)`: `none` stands for the thrown `SyntaxError`.  The fuel
given here is never the reason for a failure (`parseValue_fuel_enough`). -/
def jsonParse (raw : Str) : Option JVal :=
  match parseValue (2 * raw.length + 2) raw with
  | none => none
  | some (v, rest) => if skipWs rest = [] then some v else none

/-- The JSON value a student object is read back as. -/
def Student.toJson (s : Student) : JVal :=
  JVal.obj [(utf16 "name".toList, JVal.str (utf16 s.name)),
    (utf16 "studentId".toList, JVal.str (utf16 s.studentId)),
    (utf16 "email".toList, JVal.str (utf16 s.email)),
    (utf16 "contact".toList, JVal.str (utf16 s.contact))]

/-- The JSON value an element of the array is read back as; an empty slot,
written `null`, comes back as `null`. -/
def elemToJson : Option Student → JVal
  | none => JVal.null
  | some s => s.toJson

/-- A successful run of the parser `f` consumes input and is repeated by the
parser `g` at every fuel that is at least twice the consumed length. -/
def FuelEnough {α : Type} (f : Str → Option (α × Str)) (g : Nat → Str → Option (α × Str)) :
    Prop :=
  ∀ (s : Str) (v : α) (r : Str), f s = some (v, r) →
    r.length < s.length ∧ ∀ m, 2 * (s.length - r.length) ≤ m → g m s = some (v, r)

/-! ## The store -/

/-- What a handler can throw. -/
inductive JsError where
  | typeError
  | quotaExceeded
  deriving DecidableEq, Repr

/-- How a handler ends. -/
inductive Completion where
  | normal
  | thrown (e : JsError)
  deriving DecidableEq, Repr

/-- The `localStorage` entry under `LS_KEY` (`none`: the key is absent) and
the longest value the browser accepts in a write at this moment (`0` when it
refuses every write); `setItem` with a longer value throws. -/
structure Store where
  blob : Option Str
  quota : Nat
  deriving DecidableEq, Repr

/-- The call `localStorage.getItem(LS_KEY)`. -/
def Store.getItem (store : Store) : Option Str := store.blob

/-- The call `localStorage.setItem(LS_KEY, value)`. -/
def Store.setItem (store : Store) (value : Str) : Except JsError Store :=
  if value.length ≤ store.quota then Except.ok { store with blob := some value }
  else Except.error JsError.quotaExceeded

/-- The function `loadFromLocalStorage()`. -/
def loadFromLocalStorage (store : Store) : List JVal :=
  match store.getItem with
  | none => []
  | some raw =>
    if raw = [] then []
    else
      match jsonParse raw with
      | none => []
      | some (JVal.arr parsed) => parsed
      | some _ => []

/-! ## State and handlers -/

/-- The mutable state of the page: the array `students`, `editIndex`
(`-1` is add mode), the form inputs, the error nodes and the store. -/
structure State where
  students : List (Option Student)
  editIndex : Int
  form : Input
  errors : Errors
  store : Store
  deriving DecidableEq, Repr

/-- The function `saveToLocalStorage()`: the store after the write, or the error thrown. -/
def saveToLocalStorage (st : State) : Except JsError Store :=
  st.store.setItem (stringify st.students)

/-- The `name` branch of the validation block: the message set, if any. -/
def nameMessage (name : Str) : Option Str :=
  if name = [] then some "Name is required".toList
  else if !isOnlyLetters name then some "Name must contain only letters and spaces".toList
  else none

/-- The `studentId` branch of the validation block. -/
def idMessage (studentId : Str) : Option Str :=
  if studentId = [] then some "Student ID is required".toList
  else if !isOnlyNumbers studentId then some "Student ID must be numeric".toList
  else none

/-- The `email` branch of the validation block. -/
def emailMessage (email : Str) : Option Str :=
  if email = [] then some "Email is required".toList
  else if !isValidEmail email then some "Enter a valid email".toList
  else none

/-- The `contact` branch of the validation block. -/
def contactMessage (contact : Str) : Option Str :=
  if contact = [] then some "Contact number is required".toList
  else if !isOnlyNumbers contact then some "Contact must be numeric".toList
  else if contact.length < 10 then some "Contact must be at least 10 digits".toList
  else none

/-- The error nodes after the validation block has run on the form values
(the nodes were cleared just before). -/
def validationErrors (form : Input) : Errors :=
  { nameError := (nameMessage (trim form.name)).getD []
    idError := (idMessage (trim form.studentId)).getD []
    emailError := (emailMessage (trim form.email)).getD []
    contactError := (contactMessage (trim form.contact)).getD [] }

/-- The flag `valid` after the validation block. -/
def validationPasses (form : Input) : Bool :=
  (nameMessage (trim form.name)).isNone && (idMessage (trim form.studentId)).isNone &&
  (emailMessage (trim form.email)).isNone && (contactMessage (trim form.contact)).isNone

/-- The call `students.findIndex(s => s.studentId === studentId)` from index `k` on:
the first index whose record has this id, `-1` when there is none; reading
`s.studentId` of an empty slot throws a `TypeError`. -/
def findIndexFrom (studentId : Str) : List (Option Student) → Nat → Except JsError Int
  | [], _ => Except.ok (-1)
  | none :: _, _ => Except.error JsError.typeError
  | some s :: rest, k =>
    if s.studentId = studentId then Except.ok (k : Int) else findIndexFrom studentId rest (k + 1)

/-- The call `students.findIndex(s => s.studentId === studentId)`. -/
def findIndex (studentId : Str) (students : List (Option Student)) : Except JsError Int :=
  findIndexFrom studentId students 0

/-- The assignment `students[i] = v`: an index inside the array replaces the element, an
index beyond it lengthens the array, leaving empty slots in between. -/
def arraySet (students : List (Option Student)) (i : Nat) (v : Student) :
    List (Option Student) :=
  if i < students.length then students.set i (some v)
  else students ++ List.replicate (i - students.length) none ++ [some v]

/-- The record built from the trimmed form values. -/
def studentObj (form : Input) : Student :=
  { name := trim form.name, studentId := trim form.studentId,
    email := trim form.email, contact := trim form.contact }

/-- The part of the submit handler after the duplicate check: add or replace,
then `saveToLocalStorage(); renderTable(); form.reset()`. -/
def commit (st : State) : State × Completion :=
  let st1 : State :=
    if st.editIndex = -1 then
      { st with students := st.students ++ [some (studentObj st.form)] }
    else
      { st with students := arraySet st.students st.editIndex.toNat (studentObj st.form),
                editIndex := -1 }
  match saveToLocalStorage st1 with
  | Except.error e => (st1, Completion.thrown e)
  | Except.ok store => ({ st1 with store := store, form := emptyForm }, Completion.normal)

/-- The `submit` listener of the form. -/
def submit (st0 : State) : State × Completion :=
  let st : State := { st0 with errors := validationErrors st0.form }
  if !validationPasses st.form then (st, Completion.normal)
  else
    match findIndex (trim st.form.studentId) st.students with
    | Except.error e => (st, Completion.thrown e)
    | Except.ok duplicateIndex =>
      if st.editIndex = -1 ∧ duplicateIndex ≠ -1 then
        ({ st with errors :=
            { st.errors with idError := "A student with this ID already exists".toList } },
         Completion.normal)
      else if st.editIndex ≠ -1 ∧ duplicateIndex ≠ -1 ∧ duplicateIndex ≠ st.editIndex then
        ({ st with errors :=
            { st.errors with idError := "Another student with this ID already exists".toList } },
         Completion.normal)
      else commit st

/-- The `click` listener of the reset button. -/
def resetClicked (st : State) : State :=
  { st with form := emptyForm, errors := clearErrors, editIndex := -1 }

/-- The handler `onEditClicked` for the button with `data-index` `idx`; reading `s.name`
of a missing element throws a `TypeError`. -/
def onEditClicked (idx : Nat) (st : State) : State × Completion :=
  match st.students[idx]? with
  | some (some s) =>
    ({ st with form := ⟨s.name, s.studentId, s.email, s.contact⟩, editIndex := idx },
     Completion.normal)
  | _ => (st, Completion.thrown JsError.typeError)

/-- The handler `onDeleteClicked` for the button with `data-index` `idx`; `confirmed` is
the answer of the `confirm` dialog. -/
def onDeleteClicked (idx : Nat) (confirmed : Bool) (st : State) : State × Completion :=
  match st.students[idx]? with
  | some (some _) =>
    if !confirmed then (st, Completion.normal)
    else
      let st1 : State := { st with students := st.students.eraseIdx idx }
      match saveToLocalStorage st1 with
      | Except.error e => (st1, Completion.thrown e)
      | Except.ok store => ({ st1 with store := store }, Completion.normal)
  | _ => (st, Completion.thrown JsError.typeError)

/-- What the user can do to the page. -/
inductive Event where
  | fill (form : Input)
  | submit
  | reset
  | editClick (idx : Nat)
  | deleteClick (idx : Nat) (confirmed : Bool)

/-- The state after an event. -/
def step (st : State) : Event → State
  | Event.fill form => { st with form := form }
  | Event.submit => (submit st).1
  | Event.reset => resetClicked st
  | Event.editClick idx => (onEditClicked idx st).1
  | Event.deleteClick idx confirmed => (onDeleteClicked idx confirmed st).1

/-- The state after a sequence of events. -/
def run (st : State) (events : List Event) : State := events.foldl step st

/-- The page as `init` leaves it when the stored roster is `roster`. -/
def initial (roster : List Student) (store : Store) : State :=
  { students := roster.map some, editIndex := -1, form := emptyForm,
    errors := clearErrors, store := store }

/-- The student ids of the records of an array, empty slots skipped. -/
def ids (students : List (Option Student)) : List Str :=
  students.filterMap (fun o => o.map Student.studentId)

/-! ## `escapeHtml` -/

/-- The method `replaceAll(target, replacement)` for a pattern of one character. -/
def replaceAll (target : Char) (replacement : Str) : Str → Str
  | [] => []
  | c :: s => (if c = target then replacement else [c]) ++ replaceAll target replacement s

/-- The apostrophe, U+0027. -/
def apostrophe : Char := Char.ofNat 0x27

/-- The function `escapeHtml` on a string: the five replacements in the order
of the source, `&` first. -/
def escapeHtml (text : Str) : Str :=
  replaceAll apostrophe "&#039;".toList
    (replaceAll '"' "&quot;".toList
      (replaceAll '>' "&gt;".toList
        (replaceAll '<' "&lt;".toList
          (replaceAll '&' "&amp;".toList text))))

/-- The five entities that `escapeHtml` writes. -/
def entities : List Str :=
  ["&amp;".toList, "&lt;".toList, "&gt;".toList, "&quot;".toList, "&#039;".toList]

/-- The text of one character after `escapeHtml`. -/
def escapeChar (c : Char) : Str :=
  if c = '&' then "&amp;".toList
  else if c = '<' then "&lt;".toList
  else if c = '>' then "&gt;".toList
  else if c = '"' then "&quot;".toList
  else if c = apostrophe then "&#039;".toList
  else [c]

/-- One pass from left to right over at most `fuel` characters: each of the
five entities is replaced by the character it stands for, and every other
character is kept. -/
def decodeFuel : Nat → Str → Str
  | 0, _ => []
  | _ + 1, [] => []
  | fuel + 1, c :: s =>
    if "&amp;".toList.isPrefixOf (c :: s) then '&' :: decodeFuel fuel (s.drop 4)
    else if "&lt;".toList.isPrefixOf (c :: s) then '<' :: decodeFuel fuel (s.drop 3)
    else if "&gt;".toList.isPrefixOf (c :: s) then '>' :: decodeFuel fuel (s.drop 3)
    else if "&quot;".toList.isPrefixOf (c :: s) then '"' :: decodeFuel fuel (s.drop 5)
    else if "&#039;".toList.isPrefixOf (c :: s) then apostrophe :: decodeFuel fuel (s.drop 5)
    else c :: decodeFuel fuel s

/-- The inverse reading of the claim on `escapeHtml`: the five entities are
replaced by `&`, `<`, `>`, `"` and the apostrophe, in one pass over the whole
string (every step consumes a character, so its length is fuel enough). -/
def decodeEntities (s : Str) : Str := decodeFuel s.length s

/-! ## Sample data -/

/-- A sample record with id `1`. -/
def ann : Student := ⟨"Ann".toList, "1".toList, "ann@b.co".toList, "1234567890".toList⟩

/-- A sample record with id `2`. -/
def bob : Student := ⟨"Bob".toList, "2".toList, "bob@b.co".toList, "1234567891".toList⟩

/-- A sample record with id `3`. -/
def cyd : Student := ⟨"Cyd".toList, "3".toList, "cyd@b.co".toList, "1234567892".toList⟩

/-- The well-formed form of the specification's example. -/
def johnForm : Input := ⟨"John".toList, "123".toList, "a@b.co".toList, "1234567890".toList⟩

/-- The form of the specification's example with four ill-formed fields. -/
def badForm : Input := ⟨"J0hn!".toList, "12a".toList, "bad".toList, "123".toList⟩

/-- A form whose name holds a tab between two letters. -/
def tabForm : Input := ⟨"A\tB".toList, "123".toList, "a@b.co".toList, "1234567890".toList⟩

/-- A form holding the values of a record. -/
def formOf (s : Student) : Input := ⟨s.name, s.studentId, s.email, s.contact⟩

/-- An empty store with room for a thousand characters. -/
def roomyStore : Store := ⟨none, 1000⟩

/-- An empty store that refuses every write. -/
def fullStore : Store := ⟨none, 0⟩

/-! ## Lemmas on `findIndex` and on the ids of the array -/

theorem ids_nil : ids [] = [] := rfl

theorem ids_cons_none (xs : List (Option Student)) : ids (none :: xs) = ids xs := rfl

theorem ids_cons_some (s : Student) (xs : List (Option Student)) :
    ids (some s :: xs) = s.studentId :: ids xs := rfl

theorem ids_map_some (roster : List Student) :
    ids (roster.map some) = roster.map Student.studentId := by
  induction roster with
  | nil => rfl
  | cons r rs ih => simp [ids_cons_some, ih]

theorem ids_append (xs ys : List (Option Student)) : ids (xs ++ ys) = ids xs ++ ids ys := by
  simp [ids, List.filterMap_append]

theorem ids_replicate_none (n : Nat) : ids (List.replicate n none) = [] := by
  induction n with
  | zero => rfl
  | succ n ih => simpa [List.replicate_succ, ids_cons_none] using ih

/-- What a result of `findIndexFrom` tells: `-1` means that no record has the
id, anything else is the offset plus the position of a record with the id. -/
theorem findIndexFrom_ok (studentId : Str) :
    ∀ (xs : List (Option Student)) (k : Nat) (d : Int),
      findIndexFrom studentId xs k = Except.ok d →
      (d = -1 ∧ studentId ∉ ids xs) ∨
      (∃ j s, d = ((k + j : Nat) : Int) ∧ xs[j]? = some (some s) ∧ s.studentId = studentId) := by
  intro xs
  induction xs with
  | nil =>
    intro k d h
    simp [findIndexFrom] at h
    exact Or.inl ⟨h.symm, by simp [ids]⟩
  | cons x xs ih =>
    intro k d h
    cases x with
    | none => simp [findIndexFrom] at h
    | some s =>
      by_cases hs : s.studentId = studentId
      · simp [findIndexFrom, hs] at h
        exact Or.inr ⟨0, s, by simp [h.symm], by simp, hs⟩
      · simp only [findIndexFrom, hs, if_false] at h
        rcases ih (k + 1) d h with ⟨hd, hn⟩ | ⟨j, t, hd, hj, ht⟩
        · refine Or.inl ⟨hd, ?_⟩
          simp only [ids_cons_some, List.mem_cons, not_or]
          exact ⟨fun e => hs e.symm, hn⟩
        · refine Or.inr ⟨j + 1, t, ?_, by simpa using hj, ht⟩
          rw [hd]; congr 1; omega

/-- On an array without empty slots `findIndexFrom` does not throw. -/
theorem findIndexFrom_map_some (studentId : Str) :
    ∀ (roster : List Student) (k : Nat),
      ∃ d, findIndexFrom studentId (roster.map some) k = Except.ok d := by
  intro roster
  induction roster with
  | nil => intro k; exact ⟨-1, rfl⟩
  | cons r rs ih =>
    intro k
    by_cases hr : r.studentId = studentId
    · exact ⟨k, by simp [findIndexFrom, hr]⟩
    · obtain ⟨d, hd⟩ := ih (k + 1)
      exact ⟨d, by simp [findIndexFrom, hr, hd]⟩

/-- In a roster with pairwise distinct ids a record is found by its id at its
own position. -/
theorem findIndex_own (roster : List Student) (i : Nat) (r : Student)
    (hnd : (roster.map Student.studentId).Nodup) (hi : roster[i]? = some r) :
    findIndex r.studentId (roster.map some) = Except.ok (i : Int) := by
  obtain ⟨d, hd⟩ := findIndexFrom_map_some r.studentId roster 0
  unfold findIndex
  rw [hd]
  rcases findIndexFrom_ok _ _ _ _ hd with ⟨_, hn⟩ | ⟨j, s, hdj, hj, hs⟩
  · exfalso
    apply hn
    rw [ids_map_some]
    exact List.mem_map.mpr ⟨r, List.getElem?_mem hi, rfl⟩
  · have hj' : roster[j]? = some s := by
      rw [List.getElem?_map] at hj
      cases h : roster[j]? with
      | none => simp [h] at hj
      | some t => simp [h] at hj; rw [hj]
    have h1 : (roster.map Student.studentId)[j]? = some r.studentId := by
      simp [List.getElem?_map, hj', hs]
    have h2 : (roster.map Student.studentId)[i]? = some r.studentId := by
      simp [List.getElem?_map, hi]
    obtain ⟨hlt, e1⟩ := List.getElem?_eq_some.mp h1
    obtain ⟨hlt2, e2⟩ := List.getElem?_eq_some.mp h2
    have hji : j = i := (List.Nodup.getElem_inj_iff hnd).mp (e1.trans e2.symm)
    rw [hdj, hji]; simp

/-! ## C1: add rejects a duplicate id without mutation -/

/-- C1: in add mode (`editIndex = -1`), when the form passes validation and its
trimmed `studentId` is the id of a record of the roster, the submit handler
returns normally with the message `A student with this ID already exists` on
the `studentId` error node, and the roster, the cursor and the store are left
as they were. -/
theorem add_duplicate_rejected (roster : List Student) (st : State)
    (hroster : st.students = roster.map some) (hadd : st.editIndex = -1)
    (hvalid : validationPasses st.form = true)
    (hdup : ∃ r ∈ roster, r.studentId = trim st.form.studentId) :
    (submit st).2 = Completion.normal ∧
    (submit st).1.errors.idError = "A student with this ID already exists".toList ∧
    (submit st).1.students = st.students ∧
    (submit st).1.editIndex = st.editIndex ∧
    (submit st).1.store = st.store := by
  obtain ⟨d, hd⟩ := findIndexFrom_map_some (trim st.form.studentId) roster 0
  have hne : d ≠ -1 := by
    intro h
    rcases findIndexFrom_ok _ _ _ _ hd with ⟨_, hn⟩ | ⟨j, s, hdj, _, _⟩
    · obtain ⟨r, hr, hid⟩ := hdup
      apply hn
      rw [ids_map_some]
      exact List.mem_map.mpr ⟨r, hr, hid⟩
    · rw [hdj] at h; omega
  simp [submit, hvalid, findIndex, hroster, hd, hadd, hne]

/-- Witness of C1: the roster holds Ann, whose id is `1`, and the form is
filled with a valid record of id `1` (typed with blanks around it). -/
theorem add_duplicate_rejected_witness :
    (submit
      { students := [some ann, some bob], editIndex := -1,
        form := ⟨"John".toList, " 1 ".toList, "a@b.co".toList, "1234567890".toList⟩,
        errors := clearErrors, store := roomyStore }).1.errors.idError
      = "A student with this ID already exists".toList :=
  (add_duplicate_rejected [ann, bob] _ rfl rfl
    (by decide) ⟨ann, List.mem_cons_self _ _, by decide⟩).2.1

/-! ## C2: deleting the record under edit -/

/-- C2 (the code at the failing input): with the roster `[ann, bob]` and Ann
under edit (`editIndex = 0`), the confirmed delete of index `0` leaves
`editIndex = 0`, not `-1`: the cursor now designates Bob, and submitting the
form, which still holds Ann's values, overwrites Bob. -/
theorem delete_under_edit_keeps_cursor :
    (onEditClicked 0 (initial [ann, bob] roomyStore)).1.editIndex = 0 ∧
    (onDeleteClicked 0 true (onEditClicked 0 (initial [ann, bob] roomyStore)).1).1.editIndex = 0 ∧
    (onDeleteClicked 0 true (onEditClicked 0 (initial [ann, bob] roomyStore)).1).1.students
      = [some bob] ∧
    (submit (onDeleteClicked 0 true (onEditClicked 0 (initial [ann, bob] roomyStore)).1).1).1.students
      = [some ann] := by
  decide

/-- The delete handler never writes `editIndex`, whatever the index. -/
theorem onDeleteClicked_editIndex (idx : Nat) (confirmed : Bool) (st : State) :
    (onDeleteClicked idx confirmed st).1.editIndex = st.editIndex := by
  unfold onDeleteClicked
  split
  · cases confirmed
    · rfl
    · simp only [Bool.not_true, Bool.false_eq_true, if_false]
      split <;> rfl
  · rfl

/-! ## C3: update with the record's own id -/

/-- C3: in a roster with pairwise distinct ids, with record `i` under edit, a
form that passes validation and whose trimmed `studentId` is the id of record
`i` is not taken for a duplicate: no message is set on the `studentId` error
node and the record at position `i` becomes the submitted record. -/
theorem update_own_id_succeeds (roster : List Student) (i : Nat) (r : Student) (st : State)
    (hroster : st.students = roster.map some)
    (hnd : (roster.map Student.studentId).Nodup)
    (hi : roster[i]? = some r) (hedit : st.editIndex = (i : Int))
    (hvalid : validationPasses st.form = true)
    (hid : trim st.form.studentId = r.studentId) :
    (submit st).1.errors.idError = [] ∧
    (submit st).1.students[i]? = some (some (studentObj st.form)) ∧
    (submit st).1.students.length = roster.length := by
  have hfi := findIndex_own roster i r hnd hi
  have hlt : i < roster.length := (List.getElem?_eq_some.mp hi).1
  have hidm : idMessage (trim st.form.studentId) = none := by
    simp only [validationPasses, Bool.and_eq_true, Option.isNone_iff_eq_none] at hvalid
    exact hvalid.1.1.2
  have hne : ¬ ((i : Int) = -1) := by omega
  simp only [submit, hvalid, hroster, hid, hfi, hedit]
  simp only [Bool.not_true, Bool.false_eq_true, if_false, hne, false_and, ne_eq, not_true,
    and_false]
  unfold commit
  simp only [hedit, hne, if_false, hroster]
  have hset : arraySet (roster.map some) i (studentObj st.form) =
      (roster.map some).set i (some (studentObj st.form)) := by
    simp [arraySet, hlt]
  simp only [Int.toNat_ofNat, hset]
  split <;> simp [validationErrors, hidm, hlt]

/-- Witness of C3: Bob, at position `1`, is edited with his id unchanged. -/
theorem update_own_id_succeeds_witness :
    (submit
      { students := [some ann, some bob], editIndex := 1,
        form := ⟨"Bobby".toList, "2".toList, "bobby@b.co".toList, "1234567899".toList⟩,
        errors := clearErrors, store := roomyStore }).1.students[1]?
      = some (some ⟨"Bobby".toList, "2".toList, "bobby@b.co".toList, "1234567899".toList⟩) :=
  (update_own_id_succeeds [ann, bob] 1 bob _ rfl (by decide) rfl rfl (by decide)
    (by decide)).2.1

/-! ## C4: a failed write and the in-memory roster -/

/-- The roster `commit` leaves behind, whether the write succeeds or not. -/
theorem commit_students (st : State) :
    (commit st).1.students =
      if st.editIndex = -1 then st.students ++ [some (studentObj st.form)]
      else arraySet st.students st.editIndex.toNat (studentObj st.form) := by
  unfold commit
  by_cases h : st.editIndex = -1
  · simp only [h, if_true]; split <;> rfl
  · simp only [h, if_false]; split <;> rfl

/-- After `commit` the cursor is in add mode. -/
theorem commit_editIndex (st : State) : (commit st).1.editIndex = -1 := by
  unfold commit
  by_cases h : st.editIndex = -1
  · simp only [h, if_true]; split <;> rfl
  · simp only [h, if_false]; split <;> rfl

/-- When `commit` throws, the store is as before. -/
theorem commit_store_of_thrown (st : State) (e : JsError)
    (h : (commit st).2 = Completion.thrown e) : (commit st).1.store = st.store := by
  unfold commit at h ⊢
  by_cases hm : st.editIndex = -1
  · simp only [hm, if_true] at h ⊢
    split
    · rfl
    · rename_i store hs; simp [hs] at h
  · simp only [hm, if_false] at h ⊢
    split
    · rfl
    · rename_i store hs; simp [hs] at h

/-- The submit handler throws a quota error only out of `commit`. -/
theorem submit_of_quota (st : State)
    (h : (submit st).2 = Completion.thrown JsError.quotaExceeded) :
    submit st = commit { st with errors := validationErrors st.form } := by
  unfold submit at h ⊢
  by_cases hv : validationPasses st.form = true
  · simp only [hv, Bool.not_true, Bool.false_eq_true, if_false] at h ⊢
    cases hf : findIndex (trim st.form.studentId) st.students with
    | error e =>
      simp only [hf] at h
      cases e
      · simp at h
      · exfalso
        have : ∀ xs k, findIndexFrom (trim st.form.studentId) xs k
            ≠ Except.error JsError.quotaExceeded := by
          intro xs
          induction xs with
          | nil => intro k; simp [findIndexFrom]
          | cons x xs ih =>
            intro k
            cases x with
            | none => simp [findIndexFrom]
            | some s =>
              by_cases hs : s.studentId = trim st.form.studentId
              · simp [findIndexFrom, hs]
              · simpa [findIndexFrom, hs] using ih (k + 1)
        exact this _ _ hf
    | ok d =>
      simp only [hf] at h ⊢
      split_ifs at h ⊢
      rfl
  · simp [hv] at h

/-- C4, as the code has it: the handlers change the array first and write
afterwards, and nothing is undone when the write fails.  If the submit handler
ends with the quota error of `setItem`, the store is as before and the roster
in memory is the changed one (the record appended in add mode, stored at
`editIndex` in edit mode); if the confirmed delete ends with it, the store is
as before and the roster in memory has lost the element at `idx`. -/
theorem write_failure_keeps_mutation (st : State) (idx : Nat) :
    ((submit st).2 = Completion.thrown JsError.quotaExceeded →
      (submit st).1.store = st.store ∧
      (submit st).1.students =
        (if st.editIndex = -1 then st.students ++ [some (studentObj st.form)]
         else arraySet st.students st.editIndex.toNat (studentObj st.form))) ∧
    ((onDeleteClicked idx true st).2 = Completion.thrown JsError.quotaExceeded →
      (onDeleteClicked idx true st).1.store = st.store ∧
      (onDeleteClicked idx true st).1.students = st.students.eraseIdx idx) := by
  constructor
  · intro h
    have hs := submit_of_quota st h
    rw [hs] at h ⊢
    exact ⟨commit_store_of_thrown _ _ h, commit_students _⟩
  · intro h
    unfold onDeleteClicked at h ⊢
    split at h
    · simp only [Bool.not_true, Bool.false_eq_true, if_false] at h ⊢
      split at h
      · rename_i e he
        simp [he]
      · simp at h
    · simp at h

set_option maxRecDepth 100000 in
/-- Counterexample to C4 as stated: on a store without room, a valid add, a
valid update and a confirmed delete all end with the quota error, and each
leaves a roster in memory that differs from the one before. -/
theorem write_failure_not_atomic :
    (submit { initial [ann] fullStore with form := formOf bob }).2
      = Completion.thrown JsError.quotaExceeded ∧
    (submit { initial [ann] fullStore with form := formOf bob }).1.students
      ≠ (initial [ann] fullStore).students ∧
    (submit { initial [ann] fullStore with form := formOf bob, editIndex := 0 }).2
      = Completion.thrown JsError.quotaExceeded ∧
    (submit { initial [ann] fullStore with form := formOf bob, editIndex := 0 }).1.students
      ≠ (initial [ann] fullStore).students ∧
    (onDeleteClicked 0 true (initial [ann] fullStore)).2
      = Completion.thrown JsError.quotaExceeded ∧
    (onDeleteClicked 0 true (initial [ann] fullStore)).1.students
      ≠ (initial [ann] fullStore).students := by
  decide

set_option maxRecDepth 100000 in
/-- Witness of the amended C4: the add and the delete of the counterexample. -/
theorem write_failure_keeps_mutation_witness :
    (submit { initial [ann] fullStore with form := formOf bob }).1.students
      = [some ann, some bob] ∧
    (onDeleteClicked 0 true (initial [ann] fullStore)).1.students = [] :=
  ⟨((write_failure_keeps_mutation
      { initial [ann] fullStore with form := formOf bob } 0).1 (by decide)).2.trans (by decide),
   ((write_failure_keeps_mutation (initial [ann] fullStore) 0).2 (by decide)).2.trans
      (by decide)⟩

/-! ## C5: the ids of the roster stay pairwise distinct -/

/-- Replacing a record by one with the same id leaves the ids as they are. -/
theorem ids_set_same (v : Student) :
    ∀ (xs : List (Option Student)) (e : Nat) (s : Student),
      xs[e]? = some (some s) → s.studentId = v.studentId →
      ids (xs.set e (some v)) = ids xs := by
  intro xs
  induction xs with
  | nil => intro e s h; simp at h
  | cons x xs ih =>
    intro e s h hid
    cases e with
    | zero =>
      simp only [List.getElem?_cons_zero, Option.some.injEq] at h
      subst h
      simp [List.set_cons_zero, ids_cons_some, hid]
    | succ e =>
      simp only [List.getElem?_cons_succ] at h
      cases x with
      | none => simpa [List.set_cons_succ, ids_cons_none] using ih e s h hid
      | some t => simpa [List.set_cons_succ, ids_cons_some] using ih e s h hid

/-- The ids after storing `v` at a position are `v`'s id or ids from before. -/
theorem mem_ids_set (v : Student) :
    ∀ (xs : List (Option Student)) (e : Nat) (x : Str),
      x ∈ ids (xs.set e (some v)) → x = v.studentId ∨ x ∈ ids xs := by
  intro xs
  induction xs with
  | nil => intro e x h; simp [ids] at h
  | cons a xs ih =>
    intro e x h
    cases e with
    | zero =>
      simp only [List.set_cons_zero, ids_cons_some, List.mem_cons] at h
      rcases h with h | h
      · exact Or.inl h
      · cases a with
        | none => exact Or.inr (by simpa [ids_cons_none] using h)
        | some t => exact Or.inr (by simp [ids_cons_some, h])
    | succ e =>
      cases a with
      | none =>
        simp only [List.set_cons_succ, ids_cons_none] at h ⊢
        exact ih e x h
      | some t =>
        simp only [List.set_cons_succ, ids_cons_some, List.mem_cons] at h ⊢
        rcases h with h | h
        · exact Or.inr (Or.inl h)
        · rcases ih e x h with h | h
          · exact Or.inl h
          · exact Or.inr (Or.inr h)

/-- Storing a record with a fresh id keeps the ids pairwise distinct. -/
theorem nodup_ids_set (v : Student) :
    ∀ (xs : List (Option Student)) (e : Nat),
      (ids xs).Nodup → v.studentId ∉ ids xs → (ids (xs.set e (some v))).Nodup := by
  intro xs
  induction xs with
  | nil => intro e h _; simpa using h
  | cons a xs ih =>
    intro e hnd hfresh
    cases e with
    | zero =>
      cases a with
      | none =>
        simp only [ids_cons_none] at hnd hfresh
        simp only [List.set_cons_zero, ids_cons_some, List.nodup_cons]
        exact ⟨hfresh, hnd⟩
      | some t =>
        simp only [ids_cons_some, List.nodup_cons, List.mem_cons, not_or] at hnd hfresh
        simp only [List.set_cons_zero, ids_cons_some, List.nodup_cons]
        exact ⟨hfresh.2, hnd.2⟩
    | succ e =>
      cases a with
      | none =>
        simp only [ids_cons_none] at hnd hfresh
        simpa [List.set_cons_succ, ids_cons_none] using ih e hnd hfresh
      | some t =>
        simp only [ids_cons_some, List.nodup_cons, List.mem_cons, not_or] at hnd hfresh
        simp only [List.set_cons_succ, ids_cons_some, List.nodup_cons]
        refine ⟨?_, ih e hnd.2 hfresh.2⟩
        intro hmem
        rcases mem_ids_set v xs e _ hmem with h | h
        · exact hfresh.1 h.symm
        · exact hnd.1 h

/-- The assignment `students[i] = v` with a fresh id keeps the ids pairwise
distinct, inside the array and beyond its end. -/
theorem nodup_ids_arraySet (v : Student) (xs : List (Option Student)) (i : Nat)
    (hnd : (ids xs).Nodup) (hfresh : v.studentId ∉ ids xs) :
    (ids (arraySet xs i v)).Nodup := by
  unfold arraySet
  split
  · exact nodup_ids_set v xs i hnd hfresh
  · rw [ids_append, ids_append, ids_replicate_none, List.append_nil]
    have h1 : ids [some v] = [v.studentId] := rfl
    rw [h1]
    exact List.Nodup.append hnd (List.nodup_singleton _) (by simpa using hfresh)

/-- Removing an element keeps the ids pairwise distinct. -/
theorem nodup_ids_eraseIdx (xs : List (Option Student)) (i : Nat) (hnd : (ids xs).Nodup) :
    (ids (xs.eraseIdx i)).Nodup :=
  List.Nodup.sublist (List.Sublist.filterMap _ (List.eraseIdx_sublist xs i)) hnd

/-- The submit handler keeps the ids pairwise distinct, whatever the form and
whatever the cursor, a cursor left behind by a delete included. -/
theorem nodup_ids_submit (st : State) (hnd : (ids st.students).Nodup) :
    (ids (submit st).1.students).Nodup := by
  unfold submit
  by_cases hv : validationPasses st.form = true
  · simp only [hv, Bool.not_true, Bool.false_eq_true, if_false]
    cases hf : findIndex (trim st.form.studentId) st.students with
    | error e => exact hnd
    | ok d =>
      simp only []
      split_ifs with h1 h2
      · exact hnd
      · exact hnd
      · rw [commit_students]
        have hid : (studentObj st.form).studentId = trim st.form.studentId := rfl
        rcases findIndexFrom_ok _ _ _ _ hf with ⟨hd, hfresh⟩ | ⟨j, s, hdj, hj, hs⟩
        · simp only []
          split
          · rw [ids_append]
            have h1 : ids [some (studentObj st.form)] = [trim st.form.studentId] := rfl
            rw [h1]
            exact List.Nodup.append hnd (List.nodup_singleton _) (by simpa using hfresh)
          · exact nodup_ids_arraySet _ _ _ hnd (by rw [hid]; exact hfresh)
        · have hd1 : d ≠ -1 := by rw [hdj]; omega
          have he1 : st.editIndex ≠ -1 := fun h => h1 ⟨h, hd1⟩
          have hde : d = st.editIndex := by
            by_contra hne
            exact h2 ⟨he1, hd1, hne⟩
          have hnat : st.editIndex.toNat = j := by rw [← hde, hdj]; simp
          have hlt : j < st.students.length := (List.getElem?_eq_some.mp hj).1
          simp only [] at he1 ⊢
          rw [if_neg he1, hnat]
          unfold arraySet
          rw [if_pos hlt, ids_set_same _ _ _ s hj (by rw [hs]; rfl)]
          exact hnd
  · simp only [hv, Bool.not_false, if_true]
    exact hnd

/-- Every event keeps the ids pairwise distinct and the cursor at `-1` or at a
natural number. -/
theorem step_invariant (st : State) (ev : Event)
    (h : (ids st.students).Nodup ∧ -1 ≤ st.editIndex) :
    (ids (step st ev).students).Nodup ∧ -1 ≤ (step st ev).editIndex := by
  obtain ⟨hnd, hcur⟩ := h
  cases ev with
  | fill form => exact ⟨hnd, hcur⟩
  | submit =>
    refine ⟨nodup_ids_submit st hnd, ?_⟩
    simp only [step]
    unfold submit
    dsimp only
    split_ifs
    · exact hcur
    · split
      · exact hcur
      · split_ifs
        · exact hcur
        · exact hcur
        · rw [commit_editIndex]
  | reset => exact ⟨hnd, by simp [step, resetClicked]⟩
  | editClick idx =>
    simp only [step]
    unfold onEditClicked
    split
    · exact ⟨hnd, by simp only []; omega⟩
    · exact ⟨hnd, hcur⟩
  | deleteClick idx confirmed =>
    simp only [step]
    refine ⟨?_, by rw [onDeleteClicked_editIndex]; exact hcur⟩
    unfold onDeleteClicked
    split
    · split_ifs
      · exact hnd
      · dsimp only
        split
        · exact nodup_ids_eraseIdx _ _ hnd
        · exact nodup_ids_eraseIdx _ _ hnd
    · exact hnd

/-- A sequence of events keeps the invariant of `step_invariant`. -/
theorem run_invariant (events : List Event) :
    ∀ st : State, (ids st.students).Nodup ∧ -1 ≤ st.editIndex →
      (ids (run st events).students).Nodup ∧ -1 ≤ (run st events).editIndex := by
  induction events with
  | nil => intro st h; exact h
  | cons ev evs ih =>
    intro st h
    exact ih (step st ev) (step_invariant st ev h)

/-- C5: if the ids of the initial roster are pairwise distinct, then after any
sequence of events (filling the form, submit in add or edit mode, reset, edit
click, delete click, at any index, a delete of the record under edit included)
the ids of the records of the roster are pairwise distinct. -/
theorem ids_stay_distinct (roster : List Student) (st0 : State) (events : List Event)
    (hroster : st0.students = roster.map some) (hadd : st0.editIndex = -1)
    (hnd : (roster.map Student.studentId).Nodup) :
    (ids (run st0 events).students).Nodup := by
  refine (run_invariant events st0 ⟨?_, by omega⟩).1
  rw [hroster, ids_map_some]
  exact hnd

set_option maxRecDepth 100000 in
/-- Witness of C5: Ann is put under edit and deleted, then the form, which
holds her values, is given Cyd's id and submitted, then Bob is added again. -/
theorem ids_stay_distinct_witness :
    (ids (run (initial [ann, bob, cyd] roomyStore)
      [Event.editClick 0, Event.deleteClick 0 true, Event.fill (formOf cyd), Event.submit,
       Event.fill (formOf ann), Event.submit, Event.reset, Event.fill (formOf bob),
       Event.submit]).students).Nodup ∧
    (run (initial [ann, bob, cyd] roomyStore)
      [Event.editClick 0, Event.deleteClick 0 true, Event.fill (formOf cyd), Event.submit,
       Event.fill (formOf ann), Event.submit, Event.reset, Event.fill (formOf bob),
       Event.submit]).students = [some ann, some cyd, some bob] :=
  ⟨ids_stay_distinct [ann, bob, cyd] _ _ rfl rfl (by decide), by decide⟩

/-! ## Lemmas on `trim` and on the patterns -/

theorem trim_eq_rdropWhile (s : Str) :
    trim s = (s.dropWhile isWhiteSpace).rdropWhile isWhiteSpace := rfl

theorem mem_dropWhile_of_false {p : Char → Bool} {c : Char} :
    ∀ {l : Str}, c ∈ l → p c = false → c ∈ l.dropWhile p := by
  intro l
  induction l with
  | nil => intro h _; exact h
  | cons a l ih =>
    intro h hc
    by_cases ha : p a = true
    · rw [List.dropWhile_cons_of_pos ha]
      rcases List.mem_cons.mp h with rfl | h
      · rw [hc] at ha; exact absurd ha (by simp)
      · exact ih h hc
    · rw [List.dropWhile_cons_of_neg ha]; exact h

theorem dropWhile_head_false {p : Char → Bool} {a : Char} {rest : Str} :
    ∀ {l : Str}, l.dropWhile p = a :: rest → p a = false := by
  intro l
  induction l with
  | nil => intro h; simp at h
  | cons b l ih =>
    intro h
    by_cases hb : p b = true
    · rw [List.dropWhile_cons_of_pos hb] at h; exact ih h
    · rw [List.dropWhile_cons_of_neg hb] at h
      simp only [List.cons.injEq] at h
      rw [← h.1]; simpa using hb

theorem dropWhile_eq_self_of_all_false {p : Char → Bool} {l : Str}
    (h : ∀ c ∈ l, p c = false) : l.dropWhile p = l := by
  cases l with
  | nil => rfl
  | cons a l =>
    have ha : ¬ (p a = true) := by simp [h a (List.mem_cons_self _ _)]
    exact List.dropWhile_cons_of_neg ha

/-- A character of the trimmed string is a character of the string. -/
theorem mem_trim {c : Char} {s : Str} (h : c ∈ trim s) : c ∈ s := by
  unfold trim at h
  rw [List.mem_reverse] at h
  have h1 := (List.dropWhile_sublist isWhiteSpace).subset h
  rw [List.mem_reverse] at h1
  exact (List.dropWhile_sublist isWhiteSpace).subset h1

/-- A character that is not white space survives `trim`. -/
theorem mem_trim_of_not_ws {c : Char} {s : Str} (h : c ∈ s) (hc : isWhiteSpace c = false) :
    c ∈ trim s := by
  unfold trim
  rw [List.mem_reverse]
  apply mem_dropWhile_of_false _ hc
  rw [List.mem_reverse]
  exact mem_dropWhile_of_false h hc

/-- A string without white space is its own trimmed string. -/
theorem trim_eq_self {s : Str} (h : ∀ c ∈ s, isWhiteSpace c = false) : trim s = s := by
  unfold trim
  rw [dropWhile_eq_self_of_all_false h,
    dropWhile_eq_self_of_all_false (fun c hc => h c (List.mem_reverse.mp hc)),
    List.reverse_reverse]

/-- The function `trim` is idempotent. -/
theorem trim_trim (s : Str) : trim (trim s) = trim s := by
  have hpre : ∃ t, trim s ++ t = s.dropWhile isWhiteSpace := by
    refine ⟨((s.dropWhile isWhiteSpace).reverse.takeWhile isWhiteSpace).reverse, ?_⟩
    unfold trim
    rw [← List.reverse_append, List.takeWhile_append_dropWhile, List.reverse_reverse]
  have hdrop : (trim s).dropWhile isWhiteSpace = trim s := by
    cases hr : trim s with
    | nil => rfl
    | cons a r =>
      obtain ⟨t, ht⟩ := hpre
      rw [hr] at ht
      have ha : isWhiteSpace a = false := dropWhile_head_false ht.symm
      exact List.dropWhile_cons_of_neg (by simp [ha])
  rw [trim_eq_rdropWhile (trim s), hdrop, trim_eq_rdropWhile s]
  exact List.rdropWhile_idempotent _ _

/-- The pattern `^class+$` matches the non-empty strings over the class. -/
theorem matchItems_many1 (p : Char → Bool) :
    ∀ s : Str, matchItems [Item.many1 p] s = true ↔ s ≠ [] ∧ ∀ c ∈ s, p c = true := by
  intro s
  induction s with
  | nil => simp [matchItems]
  | cons a s ih =>
    cases s with
    | nil => simp [matchItems]
    | cons b s =>
      rw [matchItems]
      simp only [Bool.and_eq_true, Bool.or_eq_true, ih]
      simp [matchItems]

/-- The pattern `class+ rest` matches a non-empty string over the class
followed by a string that `rest` matches. -/
theorem matchItems_many1_append (p : Char → Bool) (rest : List Item) (s : Str) :
    ∀ l : Str, l ≠ [] → (∀ c ∈ l, p c = true) → matchItems rest s = true →
      matchItems (Item.many1 p :: rest) (l ++ s) = true := by
  intro l
  induction l with
  | nil => intro h; exact absurd rfl h
  | cons a l ih =>
    intro _ hall hs
    have ha : p a = true := hall a (List.mem_cons_self _ _)
    cases l with
    | nil =>
      simp only [List.singleton_append]
      rw [matchItems]
      simp [ha, hs]
    | cons b l =>
      have := ih (by simp) (fun c hc => hall c (List.mem_cons_of_mem _ hc)) hs
      simp only [List.cons_append] at this ⊢
      rw [matchItems]
      simp [ha, this]

/-- The pattern `class rest` on a non-empty string. -/
theorem matchItems_one_cons (p : Char → Bool) (rest : List Item) (c : Char) (s : Str) :
    matchItems (Item.one p :: rest) (c :: s) = (p c && matchItems rest s) := by
  rw [matchItems]

theorem isWhiteSpace_of_letter {c : Char} (h : isAsciiLetter c = true) :
    isWhiteSpace c = false := by
  simp only [isAsciiLetter, Bool.or_eq_true, Bool.and_eq_true, decide_eq_true_eq] at h
  simp only [isWhiteSpace, Bool.or_eq_false_iff, Bool.and_eq_false_iff, beq_eq_false_iff_ne,
    decide_eq_false_iff_not, ne_eq]
  omega

theorem isWhiteSpace_of_digit {c : Char} (h : isDigit c = true) : isWhiteSpace c = false := by
  simp only [isDigit, Bool.and_eq_true, decide_eq_true_eq] at h
  simp only [isWhiteSpace, Bool.or_eq_false_iff, Bool.and_eq_false_iff, beq_eq_false_iff_ne,
    decide_eq_false_iff_not, ne_eq]
  omega

/-! ## C7: `loadFromLocalStorage` degrades to the empty roster -/

/-- C7: `loadFromLocalStorage` is a total function of the store (it has no
throwing path), and it returns the empty roster when the key is absent, when
the stored string is empty, when `JSON.parse` fails on it and when `JSON.parse`
gives a value that is not an array; the strings `not-json` and `{}` are such
cases.  In every other case it returns the parsed array itself. -/
theorem load_degrades_to_empty (store : Store) :
    (store.blob = none → loadFromLocalStorage store = []) ∧
    (store.blob = some [] → loadFromLocalStorage store = []) ∧
    (∀ raw, store.blob = some raw → jsonParse raw = none → loadFromLocalStorage store = []) ∧
    (∀ raw v, store.blob = some raw → jsonParse raw = some v → (∀ xs, v ≠ JVal.arr xs) →
      loadFromLocalStorage store = []) ∧
    (loadFromLocalStorage store = [] ∨
      ∃ raw, store.blob = some raw ∧
        jsonParse raw = some (JVal.arr (loadFromLocalStorage store))) ∧
    loadFromLocalStorage ⟨some "not-json".toList, store.quota⟩ = [] ∧
    loadFromLocalStorage ⟨some "\x7b\x7d".toList, store.quota⟩ = [] := by
  refine ⟨?_, ?_, ?_, ?_, ?_, rfl, rfl⟩
  · intro h; simp [loadFromLocalStorage, Store.getItem, h]
  · intro h; simp [loadFromLocalStorage, Store.getItem, h]
  · intro raw h hp
    simp only [loadFromLocalStorage, Store.getItem, h, hp]
    split <;> rfl
  · intro raw v h hp hv
    simp only [loadFromLocalStorage, Store.getItem, h, hp]
    split
    · rfl
    · cases v with
      | arr xs => exact absurd rfl (hv xs)
      | null => rfl
      | bool b => rfl
      | num n => rfl
      | str t => rfl
      | obj m => rfl
  · unfold loadFromLocalStorage Store.getItem
    cases hb : store.blob with
    | none => exact Or.inl rfl
    | some raw =>
      simp only []
      split
      · exact Or.inl rfl
      · cases hp : jsonParse raw with
        | none => exact Or.inl rfl
        | some v =>
          cases v with
          | arr xs => exact Or.inr ⟨raw, rfl, hp⟩
          | null => exact Or.inl rfl
          | bool b => exact Or.inl rfl
          | num n => exact Or.inl rfl
          | str t => exact Or.inl rfl
          | obj m => exact Or.inl rfl

/-- Witness of C7: a store holding `not-json`, which does not parse, and a
store holding `{}`, which parses to an object. -/
theorem load_degrades_to_empty_witness :
    loadFromLocalStorage ⟨some "not-json".toList, 0⟩ = [] ∧
    loadFromLocalStorage ⟨some "\x7b\x7d".toList, 0⟩ = [] :=
  ⟨(load_degrades_to_empty ⟨some "not-json".toList, 0⟩).2.2.1 _ rfl rfl,
   (load_degrades_to_empty ⟨some "\x7b\x7d".toList, 0⟩).2.2.2.1 _ (JVal.obj []) rfl rfl
     (fun _ h => JVal.noConfusion h)⟩

/-! ## C8: every failing field is reported, each on its own -/

/-- C8, as the code has it: after the submit handler the text of the `name`,
`email` and `contact` error nodes is a function of that field's value alone;
when validation fails the same holds for the `studentId` node, the handler
returns normally and the roster, the cursor and the store are untouched; when
validation passes the `studentId` node is empty or carries one of the two
duplicate messages, which are set after the validation block and so only then.
For the form `J0hn!`, `12a`, `bad`, `123` the four nodes all carry a message. -/
theorem failing_fields_reported_together (st : State) :
    (submit st).1.errors.nameError = (nameMessage (trim st.form.name)).getD [] ∧
    (submit st).1.errors.emailError = (emailMessage (trim st.form.email)).getD [] ∧
    (submit st).1.errors.contactError = (contactMessage (trim st.form.contact)).getD [] ∧
    (validationPasses st.form = false →
      (submit st).1.errors.idError = (idMessage (trim st.form.studentId)).getD [] ∧
      (submit st).2 = Completion.normal ∧
      (submit st).1.students = st.students ∧
      (submit st).1.editIndex = st.editIndex ∧
      (submit st).1.store = st.store) ∧
    (validationPasses st.form = true →
      (submit st).1.errors.idError = [] ∨
      (submit st).1.errors.idError = "A student with this ID already exists".toList ∨
      (submit st).1.errors.idError = "Another student with this ID already exists".toList) ∧
    validationPasses badForm = false ∧
    validationErrors badForm =
      ⟨"Name must contain only letters and spaces".toList, "Student ID must be numeric".toList,
       "Enter a valid email".toList, "Contact must be at least 10 digits".toList⟩ := by
  have hc : ∀ s : State, (commit s).1.errors = s.errors := by
    intro s
    unfold commit
    by_cases h : s.editIndex = -1
    · simp only [h, if_true]; split <;> rfl
    · simp only [h, if_false]; split <;> rfl
  refine ⟨?_, ?_, ?_, ?_, ?_, by decide, by decide⟩
  · unfold submit
    dsimp only
    split_ifs
    · rfl
    · split
      · rfl
      · split_ifs
        · rfl
        · rfl
        · rw [hc]; rfl
  · unfold submit
    dsimp only
    split_ifs
    · rfl
    · split
      · rfl
      · split_ifs
        · rfl
        · rfl
        · rw [hc]; rfl
  · unfold submit
    dsimp only
    split_ifs
    · rfl
    · split
      · rfl
      · split_ifs
        · rfl
        · rfl
        · rw [hc]; rfl
  · intro hv
    simp [submit, hv, validationErrors]
  · intro hv
    have hid : (validationErrors st.form).idError = [] := by
      have h := hv
      simp only [validationPasses, Bool.and_eq_true, Option.isNone_iff_eq_none] at h
      simp [validationErrors, h.1.1.2]
    unfold submit
    simp only [hv, Bool.not_true, Bool.false_eq_true, if_false]
    split
    · exact Or.inl hid
    · split_ifs
      · exact Or.inr (Or.inl rfl)
      · exact Or.inr (Or.inr rfl)
      · rw [hc]; exact Or.inl hid

set_option maxRecDepth 100000 in
/-- Counterexample to C8 as stated: over the roster `[ann]` in add mode, the
form `John`, `1` gets the duplicate message on the `studentId` node and the
form `J0hn!`, `1`, with the same `studentId`, email and contact, gets none:
the failure of the name suppresses the message of the `studentId`, so that
message is not a function of the `studentId` value alone. -/
theorem duplicate_message_suppressed :
    (submit { initial [ann] roomyStore with
        form := ⟨"John".toList, "1".toList, "a@b.co".toList, "1234567890".toList⟩
      }).1.errors.idError = "A student with this ID already exists".toList ∧
    (submit { initial [ann] roomyStore with
        form := ⟨"J0hn!".toList, "1".toList, "a@b.co".toList, "1234567890".toList⟩
      }).1.errors.idError = [] ∧
    ¬ ∃ f : Str → Str, ∀ st : State, (submit st).1.errors.idError = f st.form.studentId := by
  refine ⟨by decide, by decide, ?_⟩
  rintro ⟨f, hf⟩
  have h1 := hf { initial [ann] roomyStore with
    form := ⟨"John".toList, "1".toList, "a@b.co".toList, "1234567890".toList⟩ }
  have h2 := hf { initial [ann] roomyStore with
    form := ⟨"J0hn!".toList, "1".toList, "a@b.co".toList, "1234567890".toList⟩ }
  exact absurd (h1.trans h2.symm) (by decide)

/-- Witness of C8: the ill-formed form is submitted over the roster `[ann]`. -/
theorem failing_fields_reported_together_witness :
    (submit { initial [ann] roomyStore with form := badForm }).1.errors.idError
      = "Student ID must be numeric".toList ∧
    (submit { initial [ann] roomyStore with form := badForm }).1.students = [some ann] :=
  ⟨((failing_fields_reported_together
      { initial [ann] roomyStore with form := badForm }).2.2.2.1 (by decide)).1.trans
      (by decide),
   ((failing_fields_reported_together
      { initial [ann] roomyStore with form := badForm }).2.2.2.1 (by decide)).2.2.1⟩

/-! ## C9: well-formed input is accepted -/

/-- A non-empty string of digits passes `isOnlyNumbers`. -/
theorem isOnlyNumbers_of_digits {s : Str} (hne : s ≠ []) (h : ∀ c ∈ s, isDigit c = true) :
    isOnlyNumbers s = true := by
  unfold isOnlyNumbers reOnlyNumbers
  rw [trim_eq_self (fun c hc => isWhiteSpace_of_digit (h c hc))]
  exact (matchItems_many1 _ s).mpr ⟨hne, h⟩

/-- A string `local@domain.tld` without white space and with no other `@`
passes `isValidEmail`. -/
theorem isValidEmail_of_shape (l d t : Str) (hl : l ≠ []) (hd : d ≠ []) (ht : t ≠ [])
    (h : ∀ c ∈ l ++ d ++ t, isWhiteSpace c = false ∧ c ≠ '@') :
    isValidEmail (l ++ ('@' :: (d ++ ('.' :: t)))) = true := by
  have hcls : ∀ c ∈ l ++ d ++ t, clsNotSpaceAt c = true := by
    intro c hc
    obtain ⟨h1, h2⟩ := h c hc
    simp [clsNotSpaceAt, h1, h2]
  have hws : ∀ c ∈ l ++ ('@' :: (d ++ ('.' :: t))), isWhiteSpace c = false := by
    intro c hc
    simp only [List.mem_append, List.mem_cons] at hc
    rcases hc with hc | rfl | hc | rfl | hc
    · exact (h c (by simp [hc])).1
    · decide
    · exact (h c (by simp [hc])).1
    · decide
    · exact (h c (by simp [hc])).1
  unfold isValidEmail reEmail
  rw [trim_eq_self hws]
  apply matchItems_many1_append _ _ _ l hl (fun c hc => hcls c (by simp [hc]))
  rw [matchItems_one_cons]
  simp only [beq_self_eq_true, Bool.true_and]
  apply matchItems_many1_append _ _ _ d hd (fun c hc => hcls c (by simp [hc]))
  rw [matchItems_one_cons]
  simp only [beq_self_eq_true, Bool.true_and]
  exact (matchItems_many1 _ t).mpr ⟨ht, fun c hc => hcls c (by simp [hc])⟩

/-- C9: a form whose name is made of ASCII letters and spaces with at least
one letter, whose `studentId` is a non-empty string of digits, whose email is
`local@domain.tld` (three non-empty parts without white space, the only `@`
being the separator) and whose contact is a string of at least ten digits
passes validation: `valid` stays true and no error node gets a message.  The
form `John`, `123`, `a@b.co`, `1234567890` is such a form. -/
theorem well_formed_input_accepted (form : Input) (l d t : Str)
    (hname : ∀ c ∈ form.name, isAsciiLetter c = true ∨ c = ' ')
    (hletter : ∃ c ∈ form.name, isAsciiLetter c = true)
    (hid : form.studentId ≠ []) (hidDigits : ∀ c ∈ form.studentId, isDigit c = true)
    (hemail : form.email = l ++ ('@' :: (d ++ ('.' :: t))))
    (hl : l ≠ []) (hd : d ≠ []) (ht : t ≠ [])
    (hparts : ∀ c ∈ l ++ d ++ t, isWhiteSpace c = false ∧ c ≠ '@')
    (hcontact : ∀ c ∈ form.contact, isDigit c = true) (hlen : 10 ≤ form.contact.length) :
    validationPasses form = true ∧ validationErrors form = clearErrors ∧
    validationPasses johnForm = true ∧ validationErrors johnForm = clearErrors := by
  have hn : nameMessage (trim form.name) = none := by
    obtain ⟨c, hc, hcl⟩ := hletter
    have hmem : c ∈ trim form.name := mem_trim_of_not_ws hc (isWhiteSpace_of_letter hcl)
    have hne : trim form.name ≠ [] := List.ne_nil_of_mem hmem
    have hre : isOnlyLetters (trim form.name) = true := by
      unfold isOnlyLetters reOnlyLetters
      rw [trim_trim]
      refine (matchItems_many1 _ _).mpr ⟨hne, fun x hx => ?_⟩
      rcases hname x (mem_trim hx) with h | rfl
      · simp [clsLetterOrSpace, h]
      · decide
    simp [nameMessage, hne, hre]
  have hidws : ∀ c ∈ form.studentId, isWhiteSpace c = false :=
    fun c hc => isWhiteSpace_of_digit (hidDigits c hc)
  have hi : idMessage (trim form.studentId) = none := by
    rw [trim_eq_self hidws]
    simp [idMessage, hid, isOnlyNumbers_of_digits hid hidDigits]
  have hews : ∀ c ∈ form.email, isWhiteSpace c = false := by
    intro c hc
    rw [hemail] at hc
    simp only [List.mem_append, List.mem_cons] at hc
    rcases hc with hc | rfl | hc | rfl | hc
    · exact (hparts c (by simp [hc])).1
    · decide
    · exact (hparts c (by simp [hc])).1
    · decide
    · exact (hparts c (by simp [hc])).1
  have he : emailMessage (trim form.email) = none := by
    rw [trim_eq_self hews]
    have hne : form.email ≠ [] := by
      rw [hemail]
      cases l with
      | nil => exact absurd rfl hl
      | cons a l => simp
    have hv : isValidEmail form.email = true := by
      rw [hemail]; exact isValidEmail_of_shape l d t hl hd ht hparts
    simp [emailMessage, hne, hv]
  have hcne : form.contact ≠ [] := by
    intro h; rw [h] at hlen; simp at hlen
  have hcm : contactMessage (trim form.contact) = none := by
    rw [trim_eq_self (fun c hc => isWhiteSpace_of_digit (hcontact c hc))]
    have hlt : ¬ form.contact.length < 10 := by omega
    simp [contactMessage, hcne, isOnlyNumbers_of_digits hcne hcontact, hlt]
  refine ⟨?_, ?_, by decide, by decide⟩
  · simp [validationPasses, hn, hi, he, hcm]
  · simp [validationErrors, hn, hi, he, hcm, clearErrors]

/-- Witness of C9: a name typed with blanks around and inside it, and an
email whose domain has two dots. -/
theorem well_formed_input_accepted_witness :
    validationPasses
      ⟨" Mary Ann ".toList, "007".toList, "m.a@uni.ac.in".toList, "00919876543210".toList⟩
      = true :=
  (well_formed_input_accepted
    ⟨" Mary Ann ".toList, "007".toList, "m.a@uni.ac.in".toList, "00919876543210".toList⟩
    "m.a".toList "uni.ac".toList "in".toList
    (by decide) (by decide) (by decide) (by decide) rfl (by decide) (by decide) (by decide)
    (by decide) (by decide) (by decide)).1

/-! ## C10: the characters of an accepted name -/

/-- What the code guarantees of an accepted name: the stored name is not
empty and each of its characters is an ASCII letter or a character of the
class `\s`, of which the space is only one. -/
theorem accepted_name_chars (form : Input) (h : validationPasses form = true) :
    (studentObj form).name ≠ [] ∧
    ∀ c ∈ (studentObj form).name, isAsciiLetter c = true ∨ isWhiteSpace c = true := by
  simp only [validationPasses, Bool.and_eq_true, Option.isNone_iff_eq_none] at h
  have hn := h.1.1.1
  unfold nameMessage at hn
  split_ifs at hn with h1 h2
  have hre : isOnlyLetters (trim form.name) = true := by simpa using h2
  unfold isOnlyLetters reOnlyLetters at hre
  rw [trim_trim] at hre
  obtain ⟨_, hall⟩ := (matchItems_many1 _ _).mp hre
  refine ⟨h1, fun c hc => ?_⟩
  have := hall c hc
  simpa [clsLetterOrSpace] using this

/-- C10 (the code at the failing input): the name `A`, tab, `B` passes
validation and is stored as it is, although the tab is neither an ASCII letter
nor the space U+0020. -/
theorem name_with_tab_accepted :
    validationPasses tabForm = true ∧
    (submit { initial [] roomyStore with form := tabForm }).1.students
      = [some ⟨['A', '\t', 'B'], "123".toList, "a@b.co".toList, "1234567890".toList⟩] ∧
    (submit { initial [] roomyStore with form := tabForm }).1.errors.nameError = [] ∧
    isAsciiLetter '\t' = false ∧ '\t' ≠ ' ' := by
  decide

/-! ## C6: what `add` wrote is what `load` reads -/

theorem hexVal_hexDigit : ∀ k : Fin 16, hexVal (hexDigit k.val) = some k.val := by decide

theorem parseStringBody_cons (c : Char) (rest : Str) :
    parseStringBody (c :: rest) =
      if c = '"' then some ([], rest)
      else if c = '\\' then
        match rest with
        | [] => none
        | e :: rest1 =>
          if e = 'u' then
            match rest1 with
            | a :: b :: x :: d :: rest2 =>
              match unicodeEscape a b x d, parseStringBody rest2 with
              | some u, some (s, r) => some (u :: s, r)
              | _, _ => none
            | _ => none
          else
            match unescape e, parseStringBody rest1 with
            | some ch, some (s, r) => some (ch.toNat :: s, r)
            | _, _ => none
      else if c.toNat < 0x20 then none
      else
        match parseStringBody rest with
        | some (s, r) => some (utf16Char c ++ s, r)
        | none => none := by
  rw [parseStringBody.eq_def]; rfl

theorem utf16Char_of_lt (c : Char) (h : c.toNat < 0x10000) : utf16Char c = [c.toNat] := by
  simp [utf16Char, h]

theorem parseStringBody_quoteChar (c : Char) (tail : Str) (x : JStr) (r : Str)
    (h : parseStringBody tail = some (x, r)) :
    parseStringBody (quoteChar c ++ tail) = some (utf16Char c ++ x, r) := by
  unfold quoteChar
  split_ifs with h1 h2 h3 h4 h5 h6 h7 h8
  · subst h1
    simp [parseStringBody_cons, unescape, h, utf16Char]
  · subst h2
    simp [parseStringBody_cons, unescape, h, utf16Char]
  · rw [utf16Char_of_lt c (by omega), h3]
    simp [parseStringBody_cons, unescape, h]
  · rw [utf16Char_of_lt c (by omega), h4]
    simp [parseStringBody_cons, unescape, h]
  · rw [utf16Char_of_lt c (by omega), h5]
    simp [parseStringBody_cons, unescape, h]
  · rw [utf16Char_of_lt c (by omega), h6]
    simp [parseStringBody_cons, unescape, h]
  · rw [utf16Char_of_lt c (by omega), h7]
    simp [parseStringBody_cons, unescape, h]
  · have e1 := hexVal_hexDigit ⟨c.toNat / 16, by omega⟩
    have e2 := hexVal_hexDigit ⟨c.toNat % 16, by omega⟩
    have e0 : hexVal '0' = some 0 := by decide
    have hu : unicodeEscape '0' '0' (hexDigit (c.toNat / 16)) (hexDigit (c.toNat % 16))
        = some c.toNat := by
      simp only [unicodeEscape, e0, e1, e2]
      have : ((0 * 16 + 0) * 16 + c.toNat / 16) * 16 + c.toNat % 16 = c.toNat := by omega
      rw [this]
    rw [utf16Char_of_lt c (by omega)]
    rw [List.cons_append, List.cons_append, List.cons_append, List.cons_append,
      List.cons_append, List.cons_append, List.nil_append, parseStringBody_cons]
    simp [hu, h]
  · rw [List.singleton_append, parseStringBody_cons]
    simp [h1, h2, h8, h]

theorem parseStringBody_quoteChars (rest : Str) :
    ∀ s : Str, parseStringBody (quoteChars s ++ rest) = some (utf16 s, rest) := by
  intro s
  induction s with
  | nil => simp [quoteChars, parseStringBody_cons, utf16]
  | cons c s ih =>
    rw [quoteChars, List.append_assoc, utf16]
    exact parseStringBody_quoteChar c _ (utf16 s) rest ih

theorem skipWs_cons (c : Char) (s : Str) (h : isJsonWs c = false) : skipWs (c :: s) = c :: s := by
  unfold skipWs
  exact List.dropWhile_cons_of_neg (by simp [h])

theorem parseValue_succ (fuel : Nat) (s : Str) :
    parseValue (fuel + 1) s =
      match skipWs s with
      | [] => none
      | c :: r =>
        if c = '"' then (parseStringBody r).map (fun p => (JVal.str p.1, p.2))
        else if c = '[' then
          match skipWs r with
          | [] => none
          | d :: r1 =>
            if d = ']' then some (JVal.arr [], r1)
            else (parseElems fuel (d :: r1)).map (fun p => (JVal.arr p.1, p.2))
        else if c = '{' then
          match skipWs r with
          | [] => none
          | d :: r1 =>
            if d = '}' then some (JVal.obj [], r1)
            else
              (parseMembers fuel (d :: r1)).map (fun p => (JVal.obj (objectMembers p.1), p.2))
        else if c = 't' then parseKeyword "true".toList (JVal.bool true) (c :: r)
        else if c = 'f' then parseKeyword "false".toList (JVal.bool false) (c :: r)
        else if c = 'n' then parseKeyword "null".toList JVal.null (c :: r)
        else (parseNumber (c :: r)).map (fun p => (JVal.num p.1, p.2)) := by
  rw [parseValue]

theorem parseElems_succ (fuel : Nat) (s : Str) :
    parseElems (fuel + 1) s =
      match parseValue fuel s with
      | none => none
      | some (v, r) =>
        match skipWs r with
        | [] => none
        | c :: r1 =>
          if c = ',' then (parseElems fuel r1).map (fun p => (v :: p.1, p.2))
          else if c = ']' then some ([v], r1)
          else none := by
  rw [parseElems]

theorem parseMembers_succ (fuel : Nat) (s : Str) :
    parseMembers (fuel + 1) s =
      match skipWs s with
      | [] => none
      | q :: r =>
        if q = '"' then
          match parseStringBody r with
          | none => none
          | some (key, r1) =>
            match skipWs r1 with
            | [] => none
            | c :: r2 =>
              if c = ':' then
                match parseValue fuel r2 with
                | none => none
                | some (v, r3) =>
                  match skipWs r3 with
                  | [] => none
                  | d :: r4 =>
                    if d = ',' then
                      (parseMembers fuel r4).map (fun p => ((key, v) :: p.1, p.2))
                    else if d = '}' then some ([(key, v)], r4)
                    else none
              else none
        else none := by
  rw [parseMembers]

theorem parseValue_string (fuel : Nat) (s rest : Str) :
    parseValue (fuel + 1) (quoteJSONString s ++ rest) = some (JVal.str (utf16 s), rest) := by
  rw [parseValue_succ, quoteJSONString, List.cons_append, skipWs_cons _ _ (by decide)]
  simp [parseStringBody_quoteChars]

theorem parseValue_null (fuel : Nat) (rest : Str) :
    parseValue (fuel + 1) ("null".toList ++ rest) = some (JVal.null, rest) := by
  rw [parseValue_succ]
  simp [skipWs_cons, isJsonWs, parseKeyword]

theorem parseMembers_last (fuel : Nat) (key val rest : Str) :
    parseMembers (fuel + 2)
      ('"' :: (quoteChars key ++ (':' :: (quoteJSONString val ++ ('}' :: rest))))) =
      some ([(utf16 key, JVal.str (utf16 val))], rest) := by
  rw [parseMembers_succ, skipWs_cons _ _ (by decide)]
  simp only [if_true, parseStringBody_quoteChars]
  rw [skipWs_cons _ _ (by decide)]
  simp only [if_true, parseValue_string]
  rw [skipWs_cons _ _ (by decide)]
  simp

theorem parseMembers_more (fuel : Nat) (key val more r : Str) (ms : List (JStr × JVal))
    (h : parseMembers (fuel + 1) more = some (ms, r)) :
    parseMembers (fuel + 2)
      ('"' :: (quoteChars key ++ (':' :: (quoteJSONString val ++ (',' :: more))))) =
      some ((utf16 key, JVal.str (utf16 val)) :: ms, r) := by
  rw [parseMembers_succ, skipWs_cons _ _ (by decide)]
  simp only [if_true, parseStringBody_quoteChars]
  rw [skipWs_cons _ _ (by decide)]
  simp only [if_true, parseValue_string]
  rw [skipWs_cons _ _ (by decide)]
  simp [h]

theorem stringifyStudent_append (s : Student) (rest : Str) :
    stringifyStudent s ++ rest =
      '{' :: '"' :: (quoteChars "name".toList ++ (':' :: (quoteJSONString s.name ++
        (',' :: '"' :: (quoteChars "studentId".toList ++ (':' :: (quoteJSONString s.studentId ++
        (',' :: '"' :: (quoteChars "email".toList ++ (':' :: (quoteJSONString s.email ++
        (',' :: '"' :: (quoteChars "contact".toList ++ (':' :: (quoteJSONString s.contact ++
        ('}' :: rest)))))))))))))))) := by
  simp only [stringifyStudent, List.append_assoc]
  rfl

/-- The four properties of a student object have four different names, none
of them an array index, so the object has them as the text gives them. -/
theorem objectMembers_student (a b c d : JVal) :
    objectMembers [(utf16 "name".toList, a), (utf16 "studentId".toList, b),
      (utf16 "email".toList, c), (utf16 "contact".toList, d)] =
      [(utf16 "name".toList, a), (utf16 "studentId".toList, b),
        (utf16 "email".toList, c), (utf16 "contact".toList, d)] := by
  rfl

theorem parseValue_student (fuel : Nat) (s : Student) (rest : Str) :
    parseValue (fuel + 6) (stringifyStudent s ++ rest) = some (s.toJson, rest) := by
  rw [stringifyStudent_append, parseValue_succ, skipWs_cons _ _ (by decide)]
  simp only [show ¬ ('{' = '"') by decide, show ¬ ('{' = '[') by decide, if_false, if_true]
  rw [skipWs_cons _ _ (by decide)]
  simp only [show ¬ ('"' = '}') by decide, if_false]
  rw [parseMembers_more (fuel + 3) _ _ _ rest
    [(utf16 "studentId".toList, JVal.str (utf16 s.studentId)),
     (utf16 "email".toList, JVal.str (utf16 s.email)),
     (utf16 "contact".toList, JVal.str (utf16 s.contact))]]
  · simp only [Option.map_some', objectMembers_student]
    rfl
  · rw [parseMembers_more (fuel + 2) _ _ _ rest
      [(utf16 "email".toList, JVal.str (utf16 s.email)),
       (utf16 "contact".toList, JVal.str (utf16 s.contact))]]
    rw [parseMembers_more (fuel + 1) _ _ _ rest
      [(utf16 "contact".toList, JVal.str (utf16 s.contact))]]
    exact parseMembers_last fuel _ _ _

theorem parseValue_elem (fuel : Nat) (x : Option Student) (rest : Str) :
    parseValue (fuel + 6) (stringifyElem x ++ rest) = some (elemToJson x, rest) := by
  cases x with
  | none => exact parseValue_null _ _
  | some s => exact parseValue_student fuel s rest

theorem parseElems_stringifyElems (rest : Str) :
    ∀ (xs : List (Option Student)) (x : Option Student) (fuel : Nat),
      parseElems (fuel + xs.length + 7) (stringifyElems (x :: xs) ++ rest) =
        some ((x :: xs).map elemToJson, rest) := by
  intro xs
  induction xs with
  | nil =>
    intro x fuel
    rw [parseElems_succ]
    simp only [stringifyElems, List.append_assoc, List.length_nil, Nat.add_zero,
      parseValue_elem]
    simp [skipWs_cons, isJsonWs]
  | cons y ys ih =>
    intro x fuel
    rw [parseElems_succ]
    simp only [stringifyElems, List.append_assoc, List.cons_append, List.length_cons]
    rw [show fuel + (ys.length + 1) + 6 = (fuel + ys.length + 1) + 6 by omega, parseValue_elem]
    simp only []
    rw [skipWs_cons _ _ (by decide)]
    simp only [if_true]
    rw [show fuel + ys.length + 1 + 6 = fuel + ys.length + 7 by omega]
    have := ih y fuel
    simp only [List.append_assoc, List.cons_append] at this
    rw [this]
    rfl

theorem stringifyElem_head (x : Option Student) :
    ∃ c t, stringifyElem x = c :: t ∧ isJsonWs c = false ∧ c ≠ ']' := by
  cases x with
  | none => exact ⟨'n', "ull".toList, rfl, by decide, by decide⟩
  | some s =>
    have h := stringifyStudent_append s []
    rw [List.append_nil] at h
    exact ⟨_, _, h, by decide, by decide⟩

theorem stringifyElem_length (x : Option Student) : 4 ≤ (stringifyElem x).length := by
  cases x with
  | none => decide
  | some s =>
    have h := stringifyStudent_append s []
    rw [List.append_nil] at h
    show 4 ≤ (stringifyStudent s).length
    rw [h]
    simp only [List.length_cons, List.length_append]
    omega

theorem stringifyElems_length :
    ∀ (xs : List (Option Student)) (x : Option Student),
      4 * (xs.length + 1) ≤ (stringifyElems (x :: xs)).length := by
  intro xs
  induction xs with
  | nil =>
    intro x
    have := stringifyElem_length x
    simp only [stringifyElems, List.length_append, List.length_cons, List.length_nil]
    omega
  | cons y ys ih =>
    intro x
    have h1 := ih y
    have h2 := stringifyElem_length x
    simp only [stringifyElems, List.length_append, List.length_cons] at h1 ⊢
    omega

/-- The parser `JSON.parse` reads back what `JSON.stringify` wrote for the roster. -/
theorem jsonParse_stringify (xs : List (Option Student)) :
    jsonParse (stringify xs) = some (JVal.arr (xs.map elemToJson)) := by
  cases xs with
  | nil => rfl
  | cons x xs =>
    obtain ⟨c, t, hc, hws, hne⟩ := stringifyElem_head x
    have hhead : ∃ t2, stringifyElems (x :: xs) = c :: t2 := by
      cases xs with
      | nil => exact ⟨t ++ [']'], by simp [stringifyElems, hc]⟩
      | cons y ys => exact ⟨t ++ ',' :: stringifyElems (y :: ys), by simp [stringifyElems, hc]⟩
    obtain ⟨t2, ht2⟩ := hhead
    have hfuel : ∃ f, 2 * (stringify (x :: xs)).length + 2 = (f + xs.length + 7) + 1 := by
      refine ⟨2 * (stringify (x :: xs)).length + 2 - (xs.length + 8), ?_⟩
      have h4 := stringifyElems_length xs x
      simp only [stringify, List.length_cons]
      omega
    obtain ⟨f, hf⟩ := hfuel
    have hp := parseElems_stringifyElems [] xs x f
    rw [List.append_nil] at hp
    unfold jsonParse
    rw [hf, parseValue_succ]
    unfold stringify
    rw [skipWs_cons _ _ (by decide)]
    simp only [show ¬ ('[' = '"') by decide, if_false, if_true]
    rw [ht2, skipWs_cons _ _ hws]
    simp only [hne, if_false]
    rw [← ht2, hp]
    rfl

/-- C6: in add mode, on a roster of records, when the form passes validation,
its trimmed `studentId` is the id of no record and the store has room for the
serialized roster, the submit handler returns normally with the record
appended, and `loadFromLocalStorage` over the store it leaves reads back the
roster in memory, record by record and in the same order; in particular the
added record, with exactly the trimmed name, id, email and contact, is in it. -/
theorem add_then_load (roster : List Student) (st : State)
    (hroster : st.students = roster.map some) (hadd : st.editIndex = -1)
    (hvalid : validationPasses st.form = true)
    (hfresh : ∀ r ∈ roster, r.studentId ≠ trim st.form.studentId)
    (hroom : (stringify (st.students ++ [some (studentObj st.form)])).length
      ≤ st.store.quota) :
    (submit st).2 = Completion.normal ∧
    (submit st).1.students = (roster ++ [studentObj st.form]).map some ∧
    loadFromLocalStorage (submit st).1.store = (submit st).1.students.map elemToJson ∧
    loadFromLocalStorage (submit st).1.store
      = (roster ++ [studentObj st.form]).map Student.toJson ∧
    (studentObj st.form).toJson ∈ loadFromLocalStorage (submit st).1.store := by
  obtain ⟨d, hd⟩ := findIndexFrom_map_some (trim st.form.studentId) roster 0
  have hd1 : d = -1 := by
    rcases findIndexFrom_ok _ _ _ _ hd with ⟨h, _⟩ | ⟨j, s, _, hj, hs⟩
    · exact h
    · exfalso
      rw [List.getElem?_map] at hj
      cases hr : roster[j]? with
      | none => simp [hr] at hj
      | some t =>
        simp [hr] at hj
        exact hfresh t (List.getElem?_mem hr) (by rw [hj]; exact hs)
  subst hd1
  have hsub : submit st =
      ({ st with students := st.students ++ [some (studentObj st.form)],
                 errors := validationErrors st.form,
                 store := { st.store with
                   blob := some (stringify (st.students ++ [some (studentObj st.form)])) },
                 form := emptyForm }, Completion.normal) := by
    have hfi : findIndex (trim st.form.studentId) st.students = Except.ok (-1) := by
      unfold findIndex; rw [hroster]; exact hd
    simp [submit, hvalid, hfi, hadd, commit, saveToLocalStorage, Store.setItem, hroom]
  have hload : loadFromLocalStorage (submit st).1.store
      = (st.students ++ [some (studentObj st.form)]).map elemToJson := by
    rw [hsub]
    simp only [loadFromLocalStorage, Store.getItem, jsonParse_stringify]
    rw [if_neg (by simp [stringify])]
  have hmap : (st.students ++ [some (studentObj st.form)]).map elemToJson
      = (roster ++ [studentObj st.form]).map Student.toJson := by
    rw [hroster]
    simp [elemToJson, List.map_append, Function.comp_def]
  refine ⟨by rw [hsub], by rw [hsub, hroster]; simp, ?_, by rw [hload, hmap], ?_⟩
  · rw [hload, hsub]
  · rw [hload, hmap]
    simp

set_option maxRecDepth 100000 in
/-- Witness of C6: Bob is added to the roster `[ann]` over a store with room. -/
theorem add_then_load_witness :
    loadFromLocalStorage (submit { initial [ann] roomyStore with form := formOf bob }).1.store
      = [ann.toJson, bob.toJson] :=
  (add_then_load [ann] { initial [ann] roomyStore with form := formOf bob } rfl rfl
    (by decide) (by decide) (by decide)).2.2.2.1


/-! ## The fuel of `jsonParse` is enough -/

theorem skipWs_length_le (s : Str) : (skipWs s).length ≤ s.length :=
  (List.dropWhile_sublist isJsonWs).length_le

theorem parseStringBody_length :
    ∀ (n : Nat) (s : Str) (x : JStr) (r : Str), s.length ≤ n →
      parseStringBody s = some (x, r) →
      r.length < s.length := by
  intro n
  induction n with
  | zero =>
    intro s x r hs h
    cases s with
    | nil => simp [parseStringBody] at h
    | cons c rest => simp at hs
  | succ n ih =>
    intro s x r hs h
    cases s with
    | nil => simp [parseStringBody] at h
    | cons c rest =>
      rw [parseStringBody_cons] at h
      simp only [List.length_cons] at hs ⊢
      split_ifs at h with h1 h2 h3
      · simp only [Option.some.injEq, Prod.mk.injEq] at h
        rw [← h.2]; omega
      · cases rest with
        | nil => simp at h
        | cons e rest1 =>
          simp only [] at h
          split_ifs at h with h4
          · match rest1, h with
            | a :: b :: y :: d :: rest2, h =>
              simp only [] at h
              split at h
              · rename_i ch s0 r0 _ hp
                simp only [Option.some.injEq, Prod.mk.injEq] at h
                have := ih rest2 s0 r0 (by simp only [List.length_cons] at hs; omega) hp
                rw [← h.2]
                simp only [List.length_cons]
                omega
              · simp at h
            | [], h => simp at h
            | [_], h => simp at h
            | [_, _], h => simp at h
            | [_, _, _], h => simp at h
          · split at h
            · rename_i ch s0 r0 _ hp
              simp only [Option.some.injEq, Prod.mk.injEq] at h
              have := ih rest1 s0 r0 (by simp only [List.length_cons] at hs; omega) hp
              rw [← h.2]
              simp only [List.length_cons]
              omega
            · simp at h
      · split at h
        · rename_i s0 r0 hp
          simp only [Option.some.injEq, Prod.mk.injEq] at h
          have := ih rest s0 r0 (by omega) hp
          rw [← h.2]; omega
        · simp at h

theorem parseKeyword_length (kw : Str) (v w : JVal) :
    ∀ (s r : Str), parseKeyword kw v s = some (w, r) → r.length + kw.length = s.length := by
  induction kw with
  | nil =>
    intro s r h
    simp [parseKeyword] at h
    rw [← h.2]; rfl
  | cons a kw ih =>
    intro s r h
    cases s with
    | nil => simp [parseKeyword, List.isPrefixOf] at h
    | cons b s =>
      unfold parseKeyword at h ih
      simp only [List.isPrefixOf, Bool.and_eq_true, List.length_cons, List.drop_succ_cons] at h
      split_ifs at h with hp
      have := ih s r (by rw [if_pos hp.2]; exact h)
      simp only [List.length_cons]
      omega

theorem parseDigits1_length (s x r : Str) (h : parseDigits1 s = some (x, r)) :
    r.length ≤ s.length := by
  unfold parseDigits1 at h
  split_ifs at h
  simp only [Option.some.injEq, Prod.mk.injEq] at h
  rw [← h.2]
  exact (List.dropWhile_sublist isDigit).length_le

theorem parseInt_length (s x r : Str) (h : parseInt s = some (x, r)) :
    r.length < s.length := by
  unfold parseInt at h
  cases s with
  | nil => simp at h
  | cons c t =>
    simp only [] at h
    split_ifs at h
    · simp only [Option.some.injEq, Prod.mk.injEq] at h
      rw [← h.2]; simp
    · simp only [Option.some.injEq, Prod.mk.injEq] at h
      rw [← h.2]
      have := (List.dropWhile_sublist isDigit (l := t)).length_le
      simp only [List.length_cons]
      omega

theorem parseFrac_length (s x r : Str) (h : parseFrac s = some (x, r)) :
    r.length ≤ s.length := by
  unfold parseFrac at h
  cases s with
  | nil => simp at h; rw [← h.2]
  | cons c t =>
    simp only [] at h
    split_ifs at h
    · simp only [Option.map_eq_some'] at h
      obtain ⟨p, hp, hpr⟩ := h
      simp only [Prod.mk.injEq] at hpr
      have := parseDigits1_length t p.1 p.2 hp
      rw [← hpr.2]
      simp only [List.length_cons]
      omega
    · simp only [Option.some.injEq, Prod.mk.injEq] at h
      rw [← h.2]

theorem parseExp_length (s x r : Str) (h : parseExp s = some (x, r)) :
    r.length ≤ s.length := by
  unfold parseExp at h
  cases s with
  | nil => simp at h; rw [← h.2]
  | cons c t =>
    simp only [] at h
    split_ifs at h
    · cases t with
      | nil => simp at h
      | cons g t1 =>
        simp only [] at h
        split_ifs at h
        · simp only [Option.map_eq_some'] at h
          obtain ⟨p, hp, hpr⟩ := h
          simp only [Prod.mk.injEq] at hpr
          have := parseDigits1_length t1 p.1 p.2 hp
          rw [← hpr.2]
          simp only [List.length_cons]
          omega
        · simp only [Option.map_eq_some'] at h
          obtain ⟨p, hp, hpr⟩ := h
          simp only [Prod.mk.injEq] at hpr
          have := parseDigits1_length (g :: t1) p.1 p.2 hp
          rw [← hpr.2]
          simp only [List.length_cons] at this ⊢
          omega
    · simp only [Option.some.injEq, Prod.mk.injEq] at h
      rw [← h.2]

theorem parseNumber_length (s x r : Str) (h : parseNumber s = some (x, r)) :
    r.length < s.length := by
  unfold parseNumber at h
  split at h
  · simp at h
  · rename_i i r1 hi
    split at h
    · simp at h
    · rename_i f r2 hf
      split at h
      · simp at h
      · rename_i e r3 he
        simp only [Option.some.injEq, Prod.mk.injEq] at h
        have h1 := parseInt_length _ _ _ hi
        have h2 := parseFrac_length _ _ _ hf
        have h3 := parseExp_length _ _ _ he
        rw [← h.2]
        have h0 : (splitSign s).2.length ≤ s.length := by
          unfold splitSign
          cases s with
          | nil => simp
          | cons c t =>
            simp only []
            split_ifs <;> simp
        omega

theorem fuelEnough_elems (n : Nat) (ihV : FuelEnough (parseValue n) parseValue)
    (ihE : FuelEnough (parseElems n) parseElems) :
    FuelEnough (parseElems (n + 1)) parseElems := by
  intro s vs r h
  rw [parseElems_succ] at h
  cases hv : parseValue n s with
  | none => simp [hv] at h
  | some p =>
    obtain ⟨v, r1⟩ := p
    obtain ⟨hlt1, hrep1⟩ := ihV s v r1 hv
    rw [hv] at h
    simp only [] at h
    cases hs : skipWs r1 with
    | nil => simp [hs] at h
    | cons c r2 =>
      rw [hs] at h
      simp only [] at h
      have hlen2 : (c :: r2).length ≤ r1.length := by rw [← hs]; exact skipWs_length_le r1
      simp only [List.length_cons] at hlen2
      split_ifs at h with hc1 hc2
      · simp only [Option.map_eq_some'] at h
        obtain ⟨⟨vs1, r3⟩, hp, hpr⟩ := h
        simp only [Prod.mk.injEq] at hpr
        obtain ⟨hvs, hr⟩ := hpr
        subst hr
        obtain ⟨hlt2, hrep2⟩ := ihE r2 vs1 r3 hp
        refine ⟨by omega, fun m hm => ?_⟩
        obtain ⟨k, rfl⟩ : ∃ k, m = k + 1 := ⟨m - 1, by omega⟩
        rw [parseElems_succ, hrep1 k (by omega)]
        simp only [hs, hc1, if_true, hrep2 k (by omega), Option.map_some', hvs]
      · simp only [Option.some.injEq, Prod.mk.injEq] at h
        obtain ⟨hvs, hr⟩ := h
        subst hr
        refine ⟨by omega, fun m hm => ?_⟩
        obtain ⟨k, rfl⟩ : ∃ k, m = k + 1 := ⟨m - 1, by omega⟩
        rw [parseElems_succ, hrep1 k (by omega)]
        subst hc2
        simp [hs, hvs]

theorem fuelEnough_members (n : Nat) (ihV : FuelEnough (parseValue n) parseValue)
    (ihM : FuelEnough (parseMembers n) parseMembers) :
    FuelEnough (parseMembers (n + 1)) parseMembers := by
  intro s ms r h
  rw [parseMembers_succ] at h
  cases hs0 : skipWs s with
  | nil => simp [hs0] at h
  | cons q r0 =>
    rw [hs0] at h
    simp only [] at h
    have hlen0 : (q :: r0).length ≤ s.length := by rw [← hs0]; exact skipWs_length_le s
    simp only [List.length_cons] at hlen0
    split_ifs at h with hq
    cases hk : parseStringBody r0 with
    | none => simp [hk] at h
    | some p =>
      obtain ⟨key, r1⟩ := p
      have hlt1 := parseStringBody_length _ _ _ _ (Nat.le_refl _) hk
      rw [hk] at h
      simp only [] at h
      cases hs1 : skipWs r1 with
      | nil => simp [hs1] at h
      | cons c r2 =>
        rw [hs1] at h
        simp only [] at h
        have hlen2 : (c :: r2).length ≤ r1.length := by rw [← hs1]; exact skipWs_length_le r1
        simp only [List.length_cons] at hlen2
        split_ifs at h with hc
        cases hv : parseValue n r2 with
        | none => simp [hv] at h
        | some p =>
          obtain ⟨v, r3⟩ := p
          obtain ⟨hlt3, hrep3⟩ := ihV r2 v r3 hv
          rw [hv] at h
          simp only [] at h
          cases hs3 : skipWs r3 with
          | nil => simp [hs3] at h
          | cons d r4 =>
            rw [hs3] at h
            simp only [] at h
            have hlen4 : (d :: r4).length ≤ r3.length := by
              rw [← hs3]; exact skipWs_length_le r3
            simp only [List.length_cons] at hlen4
            split_ifs at h with hd1 hd2
            · simp only [Option.map_eq_some'] at h
              obtain ⟨⟨ms1, r5⟩, hp, hpr⟩ := h
              simp only [Prod.mk.injEq] at hpr
              obtain ⟨hms, hr⟩ := hpr
              subst hr
              obtain ⟨hlt5, hrep5⟩ := ihM r4 ms1 r5 hp
              refine ⟨by omega, fun m hm => ?_⟩
              obtain ⟨k, rfl⟩ : ∃ k, m = k + 1 := ⟨m - 1, by omega⟩
              rw [parseMembers_succ]
              simp only [hs0, hq, if_true, hk, hs1, hc, hrep3 k (by omega), hs3, hd1,
                hrep5 k (by omega), Option.map_some', hms]
            · simp only [Option.some.injEq, Prod.mk.injEq] at h
              obtain ⟨hms, hr⟩ := h
              subst hr
              refine ⟨by omega, fun m hm => ?_⟩
              obtain ⟨k, rfl⟩ : ∃ k, m = k + 1 := ⟨m - 1, by omega⟩
              rw [parseMembers_succ]
              subst hd2
              simp [hs0, hq, hk, hs1, hc, hrep3 k (by omega), hs3, hms]

theorem fuelEnough_value (n : Nat) (ihE : FuelEnough (parseElems n) parseElems)
    (ihM : FuelEnough (parseMembers n) parseMembers) :
    FuelEnough (parseValue (n + 1)) parseValue := by
  intro s v r h
  rw [parseValue_succ] at h
  cases hs0 : skipWs s with
  | nil => simp [hs0] at h
  | cons c r0 =>
    rw [hs0] at h
    simp only [] at h
    have hlen0 : (c :: r0).length ≤ s.length := by rw [← hs0]; exact skipWs_length_le s
    simp only [List.length_cons] at hlen0
    split_ifs at h with h1 h2 h3 h4 h5 h6
    · simp only [Option.map_eq_some'] at h
      obtain ⟨⟨x, r1⟩, hp, hpr⟩ := h
      simp only [Prod.mk.injEq] at hpr
      obtain ⟨hx, hr⟩ := hpr
      subst hr
      have hlt := parseStringBody_length _ _ _ _ (Nat.le_refl _) hp
      refine ⟨by omega, fun m hm => ?_⟩
      obtain ⟨k, rfl⟩ : ∃ k, m = k + 1 := ⟨m - 1, by omega⟩
      rw [parseValue_succ]
      simp only [hs0, h1, if_true, hp, Option.map_some', hx]
    · cases hs1 : skipWs r0 with
      | nil => simp [hs1] at h
      | cons d r1 =>
        rw [hs1] at h
        simp only [] at h
        have hlen1 : (d :: r1).length ≤ r0.length := by rw [← hs1]; exact skipWs_length_le r0
        simp only [List.length_cons] at hlen1
        split_ifs at h with hd
        · simp only [Option.some.injEq, Prod.mk.injEq] at h
          obtain ⟨hx, hr⟩ := h
          subst hr
          refine ⟨by omega, fun m hm => ?_⟩
          obtain ⟨k, rfl⟩ : ∃ k, m = k + 1 := ⟨m - 1, by omega⟩
          rw [parseValue_succ]
          subst h2 hd
          simp [hs0, hs1, hx]
        · simp only [Option.map_eq_some'] at h
          obtain ⟨⟨xs, r2⟩, hp, hpr⟩ := h
          simp only [Prod.mk.injEq] at hpr
          obtain ⟨hx, hr⟩ := hpr
          subst hr
          obtain ⟨hlt, hrep⟩ := ihE (d :: r1) xs r2 hp
          simp only [List.length_cons] at hlt hrep
          refine ⟨by omega, fun m hm => ?_⟩
          obtain ⟨k, rfl⟩ : ∃ k, m = k + 1 := ⟨m - 1, by omega⟩
          rw [parseValue_succ]
          subst h2
          simp [hs0, hs1, hd, hrep k (by omega), hx]
    · cases hs1 : skipWs r0 with
      | nil => simp [hs1] at h
      | cons d r1 =>
        rw [hs1] at h
        simp only [] at h
        have hlen1 : (d :: r1).length ≤ r0.length := by rw [← hs1]; exact skipWs_length_le r0
        simp only [List.length_cons] at hlen1
        split_ifs at h with hd
        · simp only [Option.some.injEq, Prod.mk.injEq] at h
          obtain ⟨hx, hr⟩ := h
          subst hr
          refine ⟨by omega, fun m hm => ?_⟩
          obtain ⟨k, rfl⟩ : ∃ k, m = k + 1 := ⟨m - 1, by omega⟩
          rw [parseValue_succ]
          subst h3 hd
          simp [hs0, hs1, hx]
        · simp only [Option.map_eq_some'] at h
          obtain ⟨⟨xs, r2⟩, hp, hpr⟩ := h
          simp only [Prod.mk.injEq] at hpr
          obtain ⟨hx, hr⟩ := hpr
          subst hr
          obtain ⟨hlt, hrep⟩ := ihM (d :: r1) xs r2 hp
          simp only [List.length_cons] at hlt hrep
          refine ⟨by omega, fun m hm => ?_⟩
          obtain ⟨k, rfl⟩ : ∃ k, m = k + 1 := ⟨m - 1, by omega⟩
          rw [parseValue_succ]
          subst h3
          simp [hs0, hs1, hd, hrep k (by omega), hx]
    · have hl := parseKeyword_length _ _ _ _ _ h
      simp only [List.length_cons] at hl
      have hk : ("true".toList).length = 4 := by decide
      refine ⟨by omega, fun m hm => ?_⟩
      obtain ⟨k, rfl⟩ : ∃ k, m = k + 1 := ⟨m - 1, by omega⟩
      rw [parseValue_succ]
      subst h4
      simp only [hs0]
      simpa using h
    · have hl := parseKeyword_length _ _ _ _ _ h
      simp only [List.length_cons] at hl
      have hk : ("false".toList).length = 5 := by decide
      refine ⟨by omega, fun m hm => ?_⟩
      obtain ⟨k, rfl⟩ : ∃ k, m = k + 1 := ⟨m - 1, by omega⟩
      rw [parseValue_succ]
      subst h5
      simp only [hs0]
      simpa using h
    · have hl := parseKeyword_length _ _ _ _ _ h
      simp only [List.length_cons] at hl
      have hk : ("null".toList).length = 4 := by decide
      refine ⟨by omega, fun m hm => ?_⟩
      obtain ⟨k, rfl⟩ : ∃ k, m = k + 1 := ⟨m - 1, by omega⟩
      rw [parseValue_succ]
      subst h6
      simp only [hs0]
      simpa using h
    · simp only [Option.map_eq_some'] at h
      obtain ⟨⟨x, r1⟩, hp, hpr⟩ := h
      simp only [Prod.mk.injEq] at hpr
      obtain ⟨hx, hr⟩ := hpr
      subst hr
      have hlt := parseNumber_length _ _ _ hp
      simp only [List.length_cons] at hlt
      refine ⟨by omega, fun m hm => ?_⟩
      obtain ⟨k, rfl⟩ : ∃ k, m = k + 1 := ⟨m - 1, by omega⟩
      rw [parseValue_succ]
      simp only [hs0, h1, h2, h3, h4, h5, h6, if_false, hp, Option.map_some', hx]

/-- Every successful run of the three parsers consumes input and is repeated
at every fuel that is at least twice the consumed length. -/
theorem fuelEnough_all (n : Nat) :
    FuelEnough (parseValue n) parseValue ∧ FuelEnough (parseElems n) parseElems ∧
    FuelEnough (parseMembers n) parseMembers := by
  induction n with
  | zero =>
    refine ⟨?_, ?_, ?_⟩
    · intro s v r h; simp [parseValue] at h
    · intro s v r h; simp [parseElems] at h
    · intro s v r h; simp [parseMembers] at h
  | succ n ih =>
    obtain ⟨ihV, ihE, ihM⟩ := ih
    exact ⟨fuelEnough_value n ihE ihM, fuelEnough_elems n ihV ihE,
      fuelEnough_members n ihV ihM⟩

/-- The fuel `jsonParse` gives to `parseValue` is enough: a parse that
succeeds with any fuel succeeds with that fuel and gives the same result, so
`jsonParse` fails only on input that no fuel parses. -/
theorem parseValue_fuel_enough (n : Nat) (raw : Str) (v : JVal) (r : Str)
    (h : parseValue n raw = some (v, r)) :
    parseValue (2 * raw.length + 2) raw = some (v, r) :=
  ((fuelEnough_all n).1 raw v r h).2 _ (by omega)

/-- The function `jsonParse` fails exactly on the input that `parseValue` reads as a whole
value, up to trailing white space, with no amount of fuel. -/
theorem jsonParse_eq_none_iff (raw : Str) :
    jsonParse raw = none ↔
      ∀ (n : Nat) (v : JVal) (r : Str), parseValue n raw = some (v, r) → skipWs r ≠ [] := by
  unfold jsonParse
  constructor
  · intro h n v r hp
    rw [parseValue_fuel_enough n raw v r hp] at h
    simp only [] at h
    intro hr
    simp [hr] at h
  · intro h
    cases hp : parseValue (2 * raw.length + 2) raw with
    | none => rfl
    | some p =>
      obtain ⟨v, r⟩ := p
      simp only []
      rw [if_neg (h _ v r hp)]
/-! ## C11: accepted ids and contacts are digit strings -/

theorem validationPasses_iff (form : Input) :
    validationPasses form = true ↔
      nameMessage (trim form.name) = none ∧ idMessage (trim form.studentId) = none ∧
      emailMessage (trim form.email) = none ∧ contactMessage (trim form.contact) = none := by
  simp only [validationPasses, Bool.and_eq_true, Option.isNone_iff_eq_none, and_assoc]

/-- A trimmed string that passes `isOnlyNumbers` is made of digits. -/
theorem digits_of_isOnlyNumbers (s : Str) (h : isOnlyNumbers (trim s) = true) :
    ∀ c ∈ trim s, isDigit c = true := by
  unfold isOnlyNumbers reOnlyNumbers at h
  rw [trim_trim] at h
  exact ((matchItems_many1 _ _).mp h).2

theorem idMessage_eq_none (s : Str) :
    idMessage s = none ↔ s ≠ [] ∧ isOnlyNumbers s = true := by
  unfold idMessage
  split_ifs with h1 h2 <;> simp_all

theorem emailMessage_eq_none (s : Str) :
    emailMessage s = none ↔ s ≠ [] ∧ isValidEmail s = true := by
  unfold emailMessage
  split_ifs with h1 h2 <;> simp_all

theorem contactMessage_eq_none (s : Str) :
    contactMessage s = none ↔ s ≠ [] ∧ isOnlyNumbers s = true ∧ 10 ≤ s.length := by
  unfold contactMessage
  split_ifs with h1 h2 h3 <;> simp_all

/-- A record of the roster after a submit was there before, or it is the
record built from the form, and the form has passed validation. -/
theorem mem_students_submit (st : State) (x : Student)
    (h : some x ∈ (submit st).1.students) :
    some x ∈ st.students ∨ (x = studentObj st.form ∧ validationPasses st.form = true) := by
  unfold submit at h
  by_cases hv : validationPasses st.form = true
  · simp only [hv, Bool.not_true, Bool.false_eq_true, if_false] at h
    split at h
    · exact Or.inl h
    · split_ifs at h
      · exact Or.inl h
      · exact Or.inl h
      · rw [commit_students] at h
        simp only [] at h
        split_ifs at h
        · rcases List.mem_append.mp h with h | h
          · exact Or.inl h
          · simp only [List.mem_singleton, Option.some.injEq] at h
            exact Or.inr ⟨h, hv⟩
        · unfold arraySet at h
          split_ifs at h
          · rcases List.mem_or_eq_of_mem_set h with h | h
            · exact Or.inl h
            · simp only [Option.some.injEq] at h
              exact Or.inr ⟨h, hv⟩
          · simp only [List.mem_append, List.mem_replicate, List.mem_singleton,
              Option.some.injEq, reduceCtorEq, and_false, or_false] at h
            rcases h with h | h
            · exact Or.inl h
            · exact Or.inr ⟨h, hv⟩
  · simp only [hv, Bool.not_false, if_true] at h
    exact Or.inl h

/-- C11: when the form passes validation, the stored `studentId` is a
non-empty string of decimal digits and the stored contact is a string of at
least ten decimal digits; the stored name and email are not empty either, and
a record that the submit handler appends or writes is this record, so it has
four non-empty fields. -/
theorem accepted_ids_contacts_are_digits (st : State)
    (h : validationPasses st.form = true) :
    (studentObj st.form).studentId ≠ [] ∧
    (∀ c ∈ (studentObj st.form).studentId, isDigit c = true) ∧
    (∀ c ∈ (studentObj st.form).contact, isDigit c = true) ∧
    10 ≤ (studentObj st.form).contact.length ∧
    (studentObj st.form).name ≠ [] ∧ (studentObj st.form).email ≠ [] ∧
    (studentObj st.form).contact ≠ [] ∧
    ∀ x, some x ∈ (submit st).1.students → some x ∈ st.students ∨
      (x = studentObj st.form ∧ x.name ≠ [] ∧ x.studentId ≠ [] ∧ x.email ≠ [] ∧
        x.contact ≠ []) := by
  obtain ⟨hn, hi, he, hc⟩ := (validationPasses_iff st.form).mp h
  have hname := (accepted_name_chars st.form h).1
  obtain ⟨hi1, hi2⟩ := (idMessage_eq_none _).mp hi
  obtain ⟨he1, _⟩ := (emailMessage_eq_none _).mp he
  obtain ⟨hc1, hc2, hc3⟩ := (contactMessage_eq_none _).mp hc
  refine ⟨hi1, digits_of_isOnlyNumbers _ hi2, digits_of_isOnlyNumbers _ hc2, hc3, hname, he1,
    hc1, fun x hx => ?_⟩
  rcases mem_students_submit st x hx with hx | ⟨rfl, _⟩
  · exact Or.inl hx
  · exact Or.inr ⟨rfl, hname, hi1, he1, hc1⟩

/-- Witness of C11: the well-formed form of the specification, typed with
blanks around the id, is added to the roster `[ann]`. -/
theorem accepted_ids_contacts_are_digits_witness :
    (∀ c ∈ "123".toList, isDigit c = true) ∧
    ∀ x, some x ∈ (submit { initial [ann] roomyStore with
        form := ⟨"John".toList, " 123 ".toList, "a@b.co".toList, "1234567890".toList⟩
      }).1.students → some x ∈ [some ann] ∨
      (x = ⟨"John".toList, "123".toList, "a@b.co".toList, "1234567890".toList⟩ ∧
        x.name ≠ [] ∧ x.studentId ≠ [] ∧ x.email ≠ [] ∧ x.contact ≠ []) :=
  ⟨(accepted_ids_contacts_are_digits { initial [ann] roomyStore with
      form := ⟨"John".toList, " 123 ".toList, "a@b.co".toList, "1234567890".toList⟩ }
      (by decide)).2.1,
   (accepted_ids_contacts_are_digits { initial [ann] roomyStore with
      form := ⟨"John".toList, " 123 ".toList, "a@b.co".toList, "1234567890".toList⟩ }
      (by decide)).2.2.2.2.2.2.2⟩

/-! ## C12 to C14: update in place, add at the end, update against another record -/

/-- When neither duplicate branch fires, the submit handler goes on to `commit`. -/
theorem submit_eq_commit (st : State) (d : Int) (hvalid : validationPasses st.form = true)
    (hfi : findIndex (trim st.form.studentId) st.students = Except.ok d)
    (h1 : ¬ (st.editIndex = -1 ∧ d ≠ -1))
    (h2 : ¬ (st.editIndex ≠ -1 ∧ d ≠ -1 ∧ d ≠ st.editIndex)) :
    submit st = commit { st with errors := validationErrors st.form } := by
  unfold submit
  simp only [hvalid, Bool.not_true, Bool.false_eq_true, if_false, hfi]
  rw [if_neg h1, if_neg h2]

/-- In edit mode, an id found at another position stops the submit handler
with the message of the second duplicate branch. -/
theorem submit_clash (st : State) (d : Int) (hvalid : validationPasses st.form = true)
    (hfi : findIndex (trim st.form.studentId) st.students = Except.ok d)
    (he : st.editIndex ≠ -1) (hd : d ≠ -1) (hne : d ≠ st.editIndex) :
    submit st =
      ({ st with errors :=
          { validationErrors st.form with
            idError := "Another student with this ID already exists".toList } },
       Completion.normal) := by
  unfold submit
  simp only [hvalid, Bool.not_true, Bool.false_eq_true, if_false, hfi]
  rw [if_neg (fun h => he h.1), if_pos ⟨he, hd, hne⟩]

/-- On a roster of records `findIndex` returns `-1` or the position of a record. -/
theorem findIndex_roster (studentId : Str) (roster : List Student) :
    ∃ d, findIndex studentId (roster.map some) = Except.ok d ∧
      ((d = -1 ∧ ∀ r ∈ roster, r.studentId ≠ studentId) ∨
       (∃ (j : Nat) (r : Student), d = (j : Int) ∧ roster[j]? = some r ∧
         r.studentId = studentId)) := by
  obtain ⟨d, hd⟩ := findIndexFrom_map_some studentId roster 0
  refine ⟨d, hd, ?_⟩
  rcases findIndexFrom_ok _ _ _ _ hd with ⟨h, hn⟩ | ⟨j, s, hdj, hj, hs⟩
  · refine Or.inl ⟨h, fun r hr e => hn ?_⟩
    rw [ids_map_some]
    exact List.mem_map.mpr ⟨r, hr, e⟩
  · refine Or.inr ⟨j, s, by simpa using hdj, ?_, hs⟩
    rw [List.getElem?_map] at hj
    cases hr : roster[j]? with
    | none => simp [hr] at hj
    | some t => simp [hr] at hj; rw [hj]

/-- C12: on a roster of records with record `i` under edit, when the form
passes validation and the submit handler leaves no message on the `studentId`
node (the update is not rejected), the roster keeps its length, the record at
position `i` is the record built from the trimmed form values, every other
position is as before, and the cursor is back at `-1`. -/
theorem update_replaces_in_place (roster : List Student) (i : Nat) (st : State)
    (hroster : st.students = roster.map some) (hi : i < roster.length)
    (hedit : st.editIndex = (i : Int)) (hvalid : validationPasses st.form = true)
    (hok : (submit st).1.errors.idError = []) :
    (submit st).1.students = (roster.set i (studentObj st.form)).map some ∧
    (submit st).1.students.length = roster.length ∧
    (submit st).1.students[i]? = some (some (studentObj st.form)) ∧
    (∀ j, j ≠ i → (submit st).1.students[j]? = st.students[j]?) ∧
    (submit st).1.editIndex = -1 := by
  obtain ⟨d, hd, _⟩ := findIndex_roster (trim st.form.studentId) roster
  rw [← hroster] at hd
  have he : st.editIndex ≠ -1 := by rw [hedit]; omega
  have h2 : ¬ (st.editIndex ≠ -1 ∧ d ≠ -1 ∧ d ≠ st.editIndex) := by
    rintro ⟨_, hd1, hne⟩
    rw [submit_clash st d hvalid hd he hd1 hne] at hok
    simp at hok
  have hsub := submit_eq_commit st d hvalid hd (fun h => he h.1) h2
  have hst : (submit st).1.students = (roster.set i (studentObj st.form)).map some := by
    rw [hsub, commit_students]
    simp only [hedit, show ¬ ((i : Int) = -1) by omega, if_false, Int.toNat_ofNat, hroster]
    unfold arraySet
    rw [if_pos (by simpa using hi), List.map_set]
  refine ⟨hst, ?_, ?_, ?_, ?_⟩
  · rw [hst]; simp
  · rw [hst]; simp [hi]
  · intro j hj
    rw [hst, hroster, List.map_set, List.getElem?_set_ne (Ne.symm hj)]
  · rw [hsub, commit_editIndex]

set_option maxRecDepth 100000 in
/-- Witness of C12: Bob, at position `1` of `[ann, bob, cyd]`, is given a new
name and a new id. -/
theorem update_replaces_in_place_witness :
    (submit { initial [ann, bob, cyd] roomyStore with
        editIndex := 1,
        form := ⟨"Bobby".toList, "22".toList, "bob@b.co".toList, "1234567891".toList⟩
      }).1.students
      = [some ann, some ⟨"Bobby".toList, "22".toList, "bob@b.co".toList, "1234567891".toList⟩,
         some cyd] :=
  (update_replaces_in_place [ann, bob, cyd] 1 _ rfl (by decide) rfl (by decide)
    (by decide)).1

/-- C13: in add mode, on a roster of records, when the form passes validation
and its trimmed `studentId` is the id of no record, the roster after the
submit is the old roster followed by the one record built from the trimmed
form values; the old records keep their positions and the cursor stays `-1`. -/
theorem add_appends (roster : List Student) (st : State)
    (hroster : st.students = roster.map some) (hadd : st.editIndex = -1)
    (hvalid : validationPasses st.form = true)
    (hfresh : ∀ r ∈ roster, r.studentId ≠ trim st.form.studentId) :
    (submit st).1.students = (roster ++ [studentObj st.form]).map some ∧
    (submit st).1.students.length = roster.length + 1 ∧
    (∀ j, j < roster.length → (submit st).1.students[j]? = st.students[j]?) ∧
    (submit st).1.students[roster.length]? = some (some (studentObj st.form)) ∧
    (submit st).1.editIndex = -1 := by
  obtain ⟨d, hd, hcase⟩ := findIndex_roster (trim st.form.studentId) roster
  rw [← hroster] at hd
  have hd1 : d = -1 := by
    rcases hcase with ⟨h, _⟩ | ⟨j, r, _, hj, hr⟩
    · exact h
    · exact absurd hr (hfresh r (List.getElem?_mem hj))
  have hsub := submit_eq_commit st d hvalid hd (fun h => h.2 hd1) (fun h => h.1 hadd)
  have hst : (submit st).1.students = (roster ++ [studentObj st.form]).map some := by
    rw [hsub, commit_students]
    simp only [hadd, if_true, hroster, List.map_append, List.map_cons, List.map_nil]
  refine ⟨hst, ?_, ?_, ?_, ?_⟩
  · rw [hst]; simp
  · intro j hj
    rw [hst, hroster, List.map_append, List.getElem?_append_left (by simpa using hj)]
  · rw [hst, List.map_append, List.getElem?_append_right (by simp)]
    simp
  · rw [hsub, commit_editIndex]

set_option maxRecDepth 100000 in
/-- Witness of C13: Cyd is added to the roster `[ann, bob]`. -/
theorem add_appends_witness :
    (submit { initial [ann, bob] roomyStore with form := formOf cyd }).1.students
      = [some ann, some bob, some cyd] :=
  (add_appends [ann, bob] { initial [ann, bob] roomyStore with form := formOf cyd } rfl rfl
    (by decide) (by decide)).1

/-- C14: in a roster with pairwise distinct ids, with the cursor at `i`, a
form that passes validation and whose trimmed `studentId` is the id of the
record at another position `j` is rejected: the handler returns normally with
the message `Another student with this ID already exists` on the `studentId`
node, and the roster, the store and the cursor are as before. -/
theorem update_rejects_clash (roster : List Student) (i j : Nat) (r : Student) (st : State)
    (hroster : st.students = roster.map some)
    (hnd : (roster.map Student.studentId).Nodup)
    (hj : roster[j]? = some r) (hji : j ≠ i) (hedit : st.editIndex = (i : Int))
    (hvalid : validationPasses st.form = true)
    (hid : trim st.form.studentId = r.studentId) :
    (submit st).2 = Completion.normal ∧
    (submit st).1.errors.idError = "Another student with this ID already exists".toList ∧
    (submit st).1.students = st.students ∧
    (submit st).1.store = st.store ∧
    (submit st).1.editIndex = (i : Int) := by
  have hfi := findIndex_own roster j r hnd hj
  rw [← hroster, ← hid] at hfi
  have hsub := submit_clash st j hvalid hfi (by rw [hedit]; omega) (by omega)
    (by rw [hedit]; omega)
  rw [hsub]
  exact ⟨rfl, rfl, rfl, rfl, hedit⟩

/-- Witness of C14: Bob, at position `1`, is under edit and the form gives
him Ann's id. -/
theorem update_rejects_clash_witness :
    (submit { initial [ann, bob] roomyStore with
        editIndex := 1,
        form := ⟨"Bob".toList, "1".toList, "bob@b.co".toList, "1234567891".toList⟩
      }).1.errors.idError = "Another student with this ID already exists".toList :=
  (update_rejects_clash [ann, bob] 1 0 ann _ rfl (by decide) rfl (by decide) rfl
    (by decide) (by decide)).2.1

/-! ## C15: delete removes the addressed record -/

theorem eraseIdx_map_some (roster : List Student) :
    ∀ i : Nat, (roster.map some).eraseIdx i = (roster.eraseIdx i).map some := by
  induction roster with
  | nil => intro i; rfl
  | cons r rs ih =>
    intro i
    cases i with
    | zero => rfl
    | succ i => simp [List.eraseIdx_cons_succ, ih]

/-- The outcome of a confirmed delete of a record: the element is removed,
then the write is tried. -/
theorem onDeleteClicked_record (idx : Nat) (st : State) (s : Student)
    (h : st.students[idx]? = some (some s)) :
    onDeleteClicked idx true st =
      if (stringify (st.students.eraseIdx idx)).length ≤ st.store.quota then
        ({ st with students := st.students.eraseIdx idx,
                   store := { st.store with
                     blob := some (stringify (st.students.eraseIdx idx)) } },
         Completion.normal)
      else
        ({ st with students := st.students.eraseIdx idx },
         Completion.thrown JsError.quotaExceeded) := by
  unfold onDeleteClicked
  simp only [h, Bool.not_true, Bool.false_eq_true, if_false, saveToLocalStorage, Store.setItem]
  split_ifs <;> rfl

/-- C15, as the code has it: on a roster of records the confirmed delete of
an in-range index `i` leaves the old roster without the element at `i`: one
record fewer, the records before `i` in place, the records after `i` one
position down.  The store holds the serialization of that roster when the
write succeeds; when `setItem` throws, the store is as before. -/
theorem delete_removes_record (roster : List Student) (i : Nat) (st : State)
    (hroster : st.students = roster.map some) (hi : i < roster.length) :
    (onDeleteClicked i true st).1.students = (roster.eraseIdx i).map some ∧
    (onDeleteClicked i true st).1.students.length + 1 = roster.length ∧
    (∀ j, j < i → (onDeleteClicked i true st).1.students[j]? = st.students[j]?) ∧
    (∀ j, i ≤ j → (onDeleteClicked i true st).1.students[j]? = st.students[j + 1]?) ∧
    ((onDeleteClicked i true st).2 = Completion.normal →
      (onDeleteClicked i true st).1.store.blob
        = some (stringify (onDeleteClicked i true st).1.students)) ∧
    ((onDeleteClicked i true st).2 ≠ Completion.normal →
      (onDeleteClicked i true st).1.store = st.store) := by
  have hget : st.students[i]? = some (some (roster.get ⟨i, hi⟩)) := by
    rw [hroster, List.getElem?_map, List.getElem?_eq_getElem hi]
    rfl
  have hdel := onDeleteClicked_record i st _ hget
  have hst : (onDeleteClicked i true st).1.students = st.students.eraseIdx i := by
    rw [hdel]; split_ifs <;> rfl
  refine ⟨by rw [hst, hroster, eraseIdx_map_some], ?_, ?_, ?_, ?_, ?_⟩
  · rw [hst, hroster, List.length_eraseIdx, List.length_map, if_pos (by simpa using hi)]
    omega
  · intro j hj
    rw [hst, List.getElem?_eraseIdx_of_lt _ _ _ hj]
  · intro j hj
    rw [hst, List.getElem?_eraseIdx_of_ge _ _ _ hj]
  · rw [hdel]
    split_ifs
    · intro _; rfl
    · intro h; simp at h
  · rw [hdel]
    split_ifs
    · intro h; exact absurd rfl h
    · intro _; rfl

set_option maxRecDepth 100000 in
/-- Counterexample to C15 as stated: on a store without room the confirmed
delete of Ann from `[ann, bob]` leaves `[bob]` in memory while the store still
holds what it held, not the serialization of `[bob]`. -/
theorem delete_blob_not_written :
    (onDeleteClicked 0 true (initial [ann, bob] ⟨some (stringify [some ann, some bob]), 0⟩)
      ).1.students = [some bob] ∧
    (onDeleteClicked 0 true (initial [ann, bob] ⟨some (stringify [some ann, some bob]), 0⟩)
      ).1.store.blob = some (stringify [some ann, some bob]) ∧
    (onDeleteClicked 0 true (initial [ann, bob] ⟨some (stringify [some ann, some bob]), 0⟩)
      ).1.store.blob ≠ some (stringify [some bob]) := by
  decide

set_option maxRecDepth 100000 in
/-- Witness of the amended C15: Bob is deleted from `[ann, bob, cyd]` over a
store with room. -/
theorem delete_removes_record_witness :
    (onDeleteClicked 1 true (initial [ann, bob, cyd] roomyStore)).1.students
      = [some ann, some cyd] ∧
    (onDeleteClicked 1 true (initial [ann, bob, cyd] roomyStore)).1.store.blob
      = some (stringify [some ann, some cyd]) :=
  ⟨(delete_removes_record [ann, bob, cyd] 1 _ rfl (by decide)).1,
   ((delete_removes_record [ann, bob, cyd] 1 (initial [ann, bob, cyd] roomyStore) rfl
      (by decide)).2.2.2.2.1 (by decide)).trans (by decide)⟩

/-! ## C16: the order of the checks of a field decides its message -/

/-- A trimmed string with a character that is not a digit fails `isOnlyNumbers`. -/
theorem isOnlyNumbers_false_of_nondigit (s : Str) (h : ∃ c ∈ trim s, isDigit c = false) :
    isOnlyNumbers (trim s) = false := by
  obtain ⟨c, hc, hd⟩ := h
  cases hn : isOnlyNumbers (trim s) with
  | false => rfl
  | true =>
    have := digits_of_isOnlyNumbers s hn c hc
    rw [hd] at this
    exact absurd this (by simp)

/-- A non-empty trimmed string of digits passes `isOnlyNumbers`. -/
theorem isOnlyNumbers_trim_of_digits (s : Str) (hne : trim s ≠ [])
    (h : ∀ c ∈ trim s, isDigit c = true) : isOnlyNumbers (trim s) = true := by
  unfold isOnlyNumbers reOnlyNumbers
  rw [trim_trim]
  exact (matchItems_many1 _ _).mpr ⟨hne, h⟩

/-- C16: after the validation block, a field whose trimmed value is empty
carries its required-message and nothing else; a non-empty field carries its
format message when its format check fails and no message when it passes; for
the contact the numeric check comes before the length check, so a non-empty
contact with a character that is not a digit carries `Contact must be numeric`
whatever its length, and a contact of fewer than ten digits carries
`Contact must be at least 10 digits`. -/
theorem check_order_decides_message (form : Input) :
    (trim form.name = [] → (validationErrors form).nameError = "Name is required".toList) ∧
    (trim form.name ≠ [] → isOnlyLetters (trim form.name) = false →
      (validationErrors form).nameError
        = "Name must contain only letters and spaces".toList) ∧
    (trim form.name ≠ [] → isOnlyLetters (trim form.name) = true →
      (validationErrors form).nameError = []) ∧
    (trim form.studentId = [] →
      (validationErrors form).idError = "Student ID is required".toList) ∧
    (trim form.studentId ≠ [] → isOnlyNumbers (trim form.studentId) = false →
      (validationErrors form).idError = "Student ID must be numeric".toList) ∧
    (trim form.studentId ≠ [] → isOnlyNumbers (trim form.studentId) = true →
      (validationErrors form).idError = []) ∧
    (trim form.email = [] → (validationErrors form).emailError = "Email is required".toList) ∧
    (trim form.email ≠ [] → isValidEmail (trim form.email) = false →
      (validationErrors form).emailError = "Enter a valid email".toList) ∧
    (trim form.email ≠ [] → isValidEmail (trim form.email) = true →
      (validationErrors form).emailError = []) ∧
    (trim form.contact = [] →
      (validationErrors form).contactError = "Contact number is required".toList) ∧
    (trim form.contact ≠ [] → (∃ c ∈ trim form.contact, isDigit c = false) →
      (validationErrors form).contactError = "Contact must be numeric".toList) ∧
    (trim form.contact ≠ [] → (∀ c ∈ trim form.contact, isDigit c = true) →
      (trim form.contact).length < 10 →
      (validationErrors form).contactError = "Contact must be at least 10 digits".toList) ∧
    (trim form.contact ≠ [] → (∀ c ∈ trim form.contact, isDigit c = true) →
      10 ≤ (trim form.contact).length → (validationErrors form).contactError = []) := by
  refine ⟨?_, ?_, ?_, ?_, ?_, ?_, ?_, ?_, ?_, ?_, ?_, ?_, ?_⟩
  · intro h; simp [validationErrors, nameMessage, h]
  · intro h1 h2; simp [validationErrors, nameMessage, h1, h2]
  · intro h1 h2; simp [validationErrors, nameMessage, h1, h2]
  · intro h; simp [validationErrors, idMessage, h]
  · intro h1 h2; simp [validationErrors, idMessage, h1, h2]
  · intro h1 h2; simp [validationErrors, idMessage, h1, h2]
  · intro h; simp [validationErrors, emailMessage, h]
  · intro h1 h2; simp [validationErrors, emailMessage, h1, h2]
  · intro h1 h2; simp [validationErrors, emailMessage, h1, h2]
  · intro h; simp [validationErrors, contactMessage, h]
  · intro h1 h2
    simp [validationErrors, contactMessage, h1, isOnlyNumbers_false_of_nondigit _ h2]
  · intro h1 h2 h3
    simp [validationErrors, contactMessage, h1, isOnlyNumbers_trim_of_digits _ h1 h2, h3]
  · intro h1 h2 h3
    have h4 : ¬ (trim form.contact).length < 10 := by omega
    simp [validationErrors, contactMessage, h1, isOnlyNumbers_trim_of_digits _ h1 h2, h4]

/-- Witness of C16: an empty name, a twelve-character contact with a letter
in it, and a contact of nine digits. -/
theorem check_order_decides_message_witness :
    (validationErrors ⟨"  ".toList, "1".toList, "a@b.co".toList, "12345678901x".toList⟩).nameError
      = "Name is required".toList ∧
    (validationErrors ⟨"  ".toList, "1".toList, "a@b.co".toList, "12345678901x".toList⟩).contactError
      = "Contact must be numeric".toList ∧
    (validationErrors ⟨"Al".toList, "1".toList, "a@b.co".toList, "123456789".toList⟩).contactError
      = "Contact must be at least 10 digits".toList :=
  ⟨(check_order_decides_message
      ⟨"  ".toList, "1".toList, "a@b.co".toList, "12345678901x".toList⟩).1 (by decide),
   (check_order_decides_message
      ⟨"  ".toList, "1".toList, "a@b.co".toList, "12345678901x".toList⟩).2.2.2.2.2.2.2.2.2.2.1
      (by decide) ⟨'x', by decide, by decide⟩,
   (check_order_decides_message
      ⟨"Al".toList, "1".toList, "a@b.co".toList, "123456789".toList⟩).2.2.2.2.2.2.2.2.2.2.2.1
      (by decide) (by decide) (by decide)⟩

/-! ## C18: an array is loaded as it is -/

set_option maxRecDepth 100000 in
/-- C18 (the code at the failing input): the stored strings `[1,2]`, `[null]`
and an array with an object that has none of the four fields are loaded as the
arrays they denote, not as the empty roster: `loadFromLocalStorage` checks
`Array.isArray` and nothing about the elements, so `students` receives
elements that are not student objects. -/
theorem load_keeps_malformed_elements :
    loadFromLocalStorage ⟨some "[1,2]".toList, 0⟩ = [JVal.num ['1'], JVal.num ['2']] ∧
    loadFromLocalStorage ⟨some "[null]".toList, 0⟩ = [JVal.null] ∧
    loadFromLocalStorage ⟨some "[\x7b\"id\":7\x7d]".toList, 0⟩
      = [JVal.obj [(utf16 "id".toList, JVal.num ['7'])]] ∧
    loadFromLocalStorage ⟨some "[1,2]".toList, 0⟩ ≠ [] ∧
    loadFromLocalStorage ⟨some "[null]".toList, 0⟩ ≠ [] :=
  ⟨rfl, rfl, rfl, fun h => List.noConfusion h, fun h => List.noConfusion h⟩

set_option maxRecDepth 100000 in
/-- Two points of `JSON.parse` that the parser follows: an escaped surrogate
pair has the same value as the character written as it is, and a repeated
property name keeps one property, with the last value; array indices come
first among the property names. -/
theorem jsonParse_points :
    jsonParse "[\"\\ud83d\\ude00\"]".toList = some (JVal.arr [JVal.str [0xD83D, 0xDE00]]) ∧
    jsonParse ['[', '"', Char.ofNat 0x1F600, '"', ']']
      = some (JVal.arr [JVal.str [0xD83D, 0xDE00]]) ∧
    jsonParse "[\"\\ud83d\"]".toList = some (JVal.arr [JVal.str [0xD83D]]) ∧
    jsonParse "\x7b\"a\":1,\"a\":2\x7d".toList
      = some (JVal.obj [(utf16 "a".toList, JVal.num ['2'])]) ∧
    jsonParse "\x7b\"b\":1,\"a\":2,\"b\":3\x7d".toList
      = some (JVal.obj [(utf16 "b".toList, JVal.num ['3']),
          (utf16 "a".toList, JVal.num ['2'])]) ∧
    jsonParse "\x7b\"b\":1,\"10\":2,\"9\":3,\"01\":4\x7d".toList
      = some (JVal.obj [(utf16 "9".toList, JVal.num ['3']),
          (utf16 "10".toList, JVal.num ['2']), (utf16 "b".toList, JVal.num ['1']),
          (utf16 "01".toList, JVal.num ['4'])]) :=
  ⟨rfl, rfl, rfl, rfl, rfl, rfl⟩

/-! ## C19: the cursor after the delete of another record -/

set_option maxRecDepth 100000 in
/-- C19 (the code at the failing input): with the roster `[ann, bob, cyd]`
and Bob under edit (`editIndex = 1`), the confirmed delete of index `0` leaves
`editIndex = 1` over the roster `[bob, cyd]`: the cursor now designates Cyd.
Submitting Bob's values with the new id `22` overwrites Cyd and keeps the old
Bob, and submitting Bob's values unchanged is rejected as a clash with the
record at position `0`, which is Bob himself.  With the roster `[ann, bob]`
the same steps leave the cursor at `1`, beyond the end of `[bob]`. -/
theorem delete_before_edit_shifts_record :
    (onDeleteClicked 0 true (onEditClicked 1 (initial [ann, bob, cyd] roomyStore)).1).1.editIndex
      = 1 ∧
    (onDeleteClicked 0 true (onEditClicked 1 (initial [ann, bob, cyd] roomyStore)).1).1.students
      = [some bob, some cyd] ∧
    (submit { (onDeleteClicked 0 true
        (onEditClicked 1 (initial [ann, bob, cyd] roomyStore)).1).1 with
        form := ⟨"Bobby".toList, "22".toList, "bob@b.co".toList, "1234567891".toList⟩
      }).1.students
      = [some bob,
         some ⟨"Bobby".toList, "22".toList, "bob@b.co".toList, "1234567891".toList⟩] ∧
    (submit (onDeleteClicked 0 true
        (onEditClicked 1 (initial [ann, bob, cyd] roomyStore)).1).1).1.errors.idError
      = "Another student with this ID already exists".toList ∧
    (onDeleteClicked 0 true (onEditClicked 1 (initial [ann, bob] roomyStore)).1).1.editIndex
      = 1 ∧
    (onDeleteClicked 0 true (onEditClicked 1 (initial [ann, bob] roomyStore)).1).1.students
      = [some bob] := by
  decide

/-- The part of C19 that the code keeps: after the confirmed delete of a
record behind the cursor the cursor is unchanged and the record at the cursor
is the one that was there. -/
theorem delete_after_edit_keeps_record (roster : List Student) (i j : Nat) (st : State)
    (hroster : st.students = roster.map some) (hij : i < j) (hj : j < roster.length)
    (hedit : st.editIndex = (i : Int)) :
    (onDeleteClicked j true st).1.editIndex = (i : Int) ∧
    (onDeleteClicked j true st).1.students[i]? = st.students[i]? := by
  refine ⟨by rw [onDeleteClicked_editIndex, hedit], ?_⟩
  have hget : st.students[j]? = some (some (roster.get ⟨j, hj⟩)) := by
    rw [hroster, List.getElem?_map, List.getElem?_eq_getElem hj]
    rfl
  have hst : (onDeleteClicked j true st).1.students = st.students.eraseIdx j := by
    rw [onDeleteClicked_record j st _ hget]; split_ifs <;> rfl
  rw [hst, List.getElem?_eraseIdx_of_lt _ _ _ hij]

/-! ## C17: the strings `isValidEmail` accepts -/

/-- A match of `class+ rest` splits the string into a non-empty part over the
class and a part that `rest` matches. -/
theorem matchItems_many1_split (p : Char → Bool) (rest : List Item) :
    ∀ s : Str, matchItems (Item.many1 p :: rest) s = true →
      ∃ l t, s = l ++ t ∧ l ≠ [] ∧ (∀ c ∈ l, p c = true) ∧ matchItems rest t = true := by
  intro s
  induction s with
  | nil => intro h; simp [matchItems] at h
  | cons a s ih =>
    intro h
    rw [matchItems] at h
    simp only [Bool.and_eq_true, Bool.or_eq_true] at h
    obtain ⟨ha, h | h⟩ := h
    · exact ⟨[a], s, rfl, by simp, by simpa using ha, h⟩
    · obtain ⟨l, t, hs, _, hl, ht⟩ := ih h
      refine ⟨a :: l, t, by rw [hs]; rfl, by simp, ?_, ht⟩
      intro c hc
      rcases List.mem_cons.mp hc with rfl | hc
      · exact ha
      · exact hl c hc

/-- A match of `class rest` takes one character of the class off the string. -/
theorem matchItems_one_split (p : Char → Bool) (rest : List Item) (s : Str)
    (h : matchItems (Item.one p :: rest) s = true) :
    ∃ c t, s = c :: t ∧ p c = true ∧ matchItems rest t = true := by
  cases s with
  | nil => simp [matchItems] at h
  | cons c t =>
    rw [matchItems_one_cons] at h
    simp only [Bool.and_eq_true] at h
    exact ⟨c, t, rfl, h.1, h.2⟩

/-- The pattern of `isValidEmail` matches exactly the strings
`local@domain.tld` with three non-empty parts over the class `[^\s@]`. -/
theorem matchItems_reEmail_iff (e : Str) :
    matchItems reEmail e = true ↔
      ∃ l d u, e = l ++ ('@' :: (d ++ ('.' :: u))) ∧ l ≠ [] ∧ d ≠ [] ∧ u ≠ [] ∧
        ∀ c ∈ l ++ d ++ u, clsNotSpaceAt c = true := by
  constructor
  · intro h
    unfold reEmail at h
    obtain ⟨l, t1, he, hl, hlc, h1⟩ := matchItems_many1_split _ _ _ h
    obtain ⟨a, t2, ht1, ha, h2⟩ := matchItems_one_split _ _ _ h1
    obtain ⟨d, t3, ht2, hd, hdc, h3⟩ := matchItems_many1_split _ _ _ h2
    obtain ⟨b, t4, ht3, hb, h4⟩ := matchItems_one_split _ _ _ h3
    obtain ⟨hu, huc⟩ := (matchItems_many1 _ _).mp h4
    have ha1 : a = '@' := by simpa using ha
    have hb1 : b = '.' := by simpa using hb
    refine ⟨l, d, t4, by rw [he, ht1, ht2, ht3, ha1, hb1], hl, hd, hu, ?_⟩
    intro c hc
    simp only [List.mem_append] at hc
    rcases hc with (hc | hc) | hc
    · exact hlc c hc
    · exact hdc c hc
    · exact huc c hc
  · rintro ⟨l, d, u, he, hl, hd, hu, hc⟩
    rw [he]
    unfold reEmail
    apply matchItems_many1_append _ _ _ l hl (fun c h => hc c (by simp [h]))
    rw [matchItems_one_cons]
    simp only [beq_self_eq_true, Bool.true_and]
    apply matchItems_many1_append _ _ _ d hd (fun c h => hc c (by simp [h]))
    rw [matchItems_one_cons]
    simp only [beq_self_eq_true, Bool.true_and]
    exact (matchItems_many1 _ u).mpr ⟨hu, fun c h => hc c (by simp [h])⟩

/-- C17: `isValidEmail(s)` is true exactly when the trimmed `s` has no white
space character, has exactly one `@`, has at least one character before the
`@`, and has after the `@` a `.` that is neither the first nor the last
character of that part. -/
theorem isValidEmail_iff (s : Str) :
    isValidEmail s = true ↔
      (∀ c ∈ trim s, isWhiteSpace c = false) ∧ (trim s).count '@' = 1 ∧
      ∃ l d u, trim s = l ++ ('@' :: (d ++ ('.' :: u))) ∧ l ≠ [] ∧ d ≠ [] ∧ u ≠ [] := by
  unfold isValidEmail
  rw [matchItems_reEmail_iff]
  constructor
  · rintro ⟨l, d, u, he, hl, hd, hu, hc⟩
    have hcls : ∀ c ∈ l ++ d ++ u, isWhiteSpace c = false ∧ c ≠ '@' := by
      intro c h
      have := hc c h
      simpa [clsNotSpaceAt] using this
    have hnot : ∀ x : Str, (∀ c ∈ x, c ∈ l ++ d ++ u) → x.count '@' = 0 := by
      intro x hx
      rw [List.count_eq_zero]
      intro hmem
      exact (hcls _ (hx _ hmem)).2 rfl
    refine ⟨?_, ?_, l, d, u, he, hl, hd, hu⟩
    · intro c h
      rw [he] at h
      simp only [List.mem_append, List.mem_cons] at h
      rcases h with h | rfl | h | rfl | h
      · exact (hcls c (by simp [h])).1
      · decide
      · exact (hcls c (by simp [h])).1
      · decide
      · exact (hcls c (by simp [h])).1
    · rw [he]
      simp only [List.count_append, List.count_cons, beq_self_eq_true, if_true,
        hnot l (fun c h => by simp [h]), hnot d (fun c h => by simp [h]),
        hnot u (fun c h => by simp [h])]
      decide
  · rintro ⟨hws, hcount, l, d, u, he, hl, hd, hu⟩
    refine ⟨l, d, u, he, hl, hd, hu, ?_⟩
    rw [he] at hcount hws
    simp only [List.count_append, List.count_cons, beq_self_eq_true, if_true] at hcount
    have hdot : (if ('.' == '@') = true then 1 else 0) = 0 := by decide
    rw [hdot] at hcount
    have h0 : l.count '@' = 0 ∧ d.count '@' = 0 ∧ u.count '@' = 0 := by omega
    simp only [List.count_eq_zero] at h0
    intro c hc
    have hmem : c ∈ l ++ ('@' :: (d ++ ('.' :: u))) := by
      simp only [List.mem_append, List.mem_cons] at hc ⊢
      rcases hc with (hc | hc) | hc
      · exact Or.inl hc
      · exact Or.inr (Or.inr (Or.inl hc))
      · exact Or.inr (Or.inr (Or.inr (Or.inr hc)))
    have hne : c ≠ '@' := by
      rintro rfl
      simp only [List.mem_append] at hc
      rcases hc with (hc | hc) | hc
      · exact h0.1 hc
      · exact h0.2.1 hc
      · exact h0.2.2 hc
    simp [clsNotSpaceAt, hws c hmem, hne]

/-! ## C20: `escapeHtml` -/

theorem replaceAll_append (target : Char) (replacement : Str) :
    ∀ a b : Str, replaceAll target replacement (a ++ b) =
      replaceAll target replacement a ++ replaceAll target replacement b := by
  intro a
  induction a with
  | nil => intro b; rfl
  | cons c a ih => intro b; simp [replaceAll, ih]

theorem replaceAll_of_not_mem (target : Char) (replacement : Str) :
    ∀ a : Str, target ∉ a → replaceAll target replacement a = a := by
  intro a
  induction a with
  | nil => intro _; rfl
  | cons c a ih =>
    intro h
    simp only [List.mem_cons, not_or] at h
    simp [replaceAll, ih h.2, Ne.symm h.1]

theorem escapeHtml_singleton (c : Char) : escapeHtml [c] = escapeChar c := by
  unfold escapeChar
  split_ifs with h1 h2 h3 h4 h5
  · subst h1; decide
  · subst h2; decide
  · subst h3; decide
  · subst h4; decide
  · subst h5; decide
  · simp [escapeHtml, replaceAll, h1, h2, h3, h4, h5]

theorem escapeHtml_append (a b : Str) : escapeHtml (a ++ b) = escapeHtml a ++ escapeHtml b := by
  simp only [escapeHtml, replaceAll_append]

theorem escapeHtml_cons (c : Char) (s : Str) :
    escapeHtml (c :: s) = escapeChar c ++ escapeHtml s := by
  rw [← escapeHtml_singleton, ← escapeHtml_append]
  rfl

theorem escapeChar_clean (c : Char) :
    ∀ x ∈ escapeChar c, x ≠ '<' ∧ x ≠ '>' ∧ x ≠ '"' ∧ x ≠ apostrophe := by
  unfold escapeChar
  split_ifs with h1 h2 h3 h4 h5
  · decide
  · decide
  · decide
  · decide
  · decide
  · intro x hx
    rw [List.mem_singleton] at hx
    subst hx
    exact ⟨h2, h3, h4, h5⟩

theorem decodeFuel_escapeChar (c : Char) (t : Str) (fuel : Nat) :
    decodeFuel (fuel + 1) (escapeChar c ++ t) = c :: decodeFuel fuel t := by
  unfold escapeChar
  split_ifs with h1 h2 h3 h4 h5
  · subst h1; simp [decodeFuel, List.isPrefixOf]
  · subst h2; simp [decodeFuel, List.isPrefixOf]
  · subst h3; simp [decodeFuel, List.isPrefixOf]
  · subst h4; simp [decodeFuel, List.isPrefixOf]
  · subst h5; simp [decodeFuel, List.isPrefixOf, apostrophe]
  · have h0 : ¬ ('&' = c) := fun h => h1 h.symm
    simp [decodeFuel, List.isPrefixOf, h0]

theorem escapeChar_length (c : Char) : 1 ≤ (escapeChar c).length := by
  unfold escapeChar
  split_ifs <;> simp

theorem decodeFuel_escapeHtml :
    ∀ (x : Str) (fuel : Nat), (escapeHtml x).length ≤ fuel →
      decodeFuel fuel (escapeHtml x) = x := by
  intro x
  induction x with
  | nil =>
    intro fuel _
    cases fuel <;> rfl
  | cons c x ih =>
    intro fuel h
    rw [escapeHtml_cons] at h ⊢
    have h1 := escapeChar_length c
    rw [List.length_append] at h
    obtain ⟨k, rfl⟩ : ∃ k, fuel = k + 1 := ⟨fuel - 1, by omega⟩
    rw [decodeFuel_escapeChar, ih k (by omega)]

theorem escapeChar_amp (c : Char) (pre tail : Str) (h : escapeChar c = pre ++ '&' :: tail) :
    pre = [] ∧ escapeChar c ∈ entities := by
  have key : ∀ e : Str, e ∈ entities → e = pre ++ '&' :: tail → pre = [] := by
    intro e he heq
    cases pre with
    | nil => rfl
    | cons p pre1 =>
      exfalso
      have hmem : '&' ∈ e.tail := by rw [heq]; simp
      simp only [entities, List.mem_cons, List.mem_singleton, List.not_mem_nil, or_false] at he
      rcases he with rfl | rfl | rfl | rfl | rfl <;> exact absurd hmem (by decide)
  unfold escapeChar at h ⊢
  split_ifs at h ⊢ with h1 h2 h3 h4 h5
  · exact ⟨key _ (by decide) h, by decide⟩
  · exact ⟨key _ (by decide) h, by decide⟩
  · exact ⟨key _ (by decide) h, by decide⟩
  · exact ⟨key _ (by decide) h, by decide⟩
  · exact ⟨key _ (by decide) h, by decide⟩
  · exfalso
    cases pre with
    | nil => simp only [List.nil_append, List.cons.injEq] at h; exact h1 h.1
    | cons p pre1 =>
      have := congrArg List.length h
      simp at this

/-- C20: for every string `s`, `escapeHtml(s)` has none of the characters
`<`, `>`, `"` and apostrophe; every `&` in it starts one of the five entities
`&amp;`, `&lt;`, `&gt;`, `&quot;`, `&#039;`; reading the five entities back in
one pass gives `s`; so `escapeHtml` is injective. -/
theorem escapeHtml_neutralises (s : Str) :
    (∀ c ∈ escapeHtml s, c ≠ '<' ∧ c ≠ '>' ∧ c ≠ '"' ∧ c ≠ apostrophe) ∧
    (∀ pre post, escapeHtml s = pre ++ '&' :: post →
      ∃ e ∈ entities, ∃ rest, '&' :: post = e ++ rest) ∧
    decodeEntities (escapeHtml s) = s ∧
    (∀ t, escapeHtml t = escapeHtml s → t = s) := by
  have hdec : ∀ x : Str, decodeEntities (escapeHtml x) = x :=
    fun x => decodeFuel_escapeHtml x _ (Nat.le_refl _)
  refine ⟨?_, ?_, hdec s, fun t h => ?_⟩
  · induction s with
    | nil => intro c hc; simp [escapeHtml, replaceAll] at hc
    | cons a s ih =>
      intro c hc
      rw [escapeHtml_cons, List.mem_append] at hc
      rcases hc with hc | hc
      · exact escapeChar_clean a c hc
      · exact ih c hc
  · induction s with
    | nil => intro pre post h; simp [escapeHtml, replaceAll] at h
    | cons a s ih =>
      intro pre post h
      rw [escapeHtml_cons, List.append_eq_append_iff] at h
      rcases h with ⟨a1, _, h2⟩ | ⟨c1, h1, h2⟩
      · exact ih a1 post h2
      · cases c1 with
        | nil => exact ih [] post (by simpa using h2.symm)
        | cons x c2 =>
          simp only [List.cons_append, List.cons.injEq] at h2
          obtain ⟨hx, hpost⟩ := h2
          subst hx
          obtain ⟨hpre, hent⟩ := escapeChar_amp a pre c2 h1
          subst hpre
          refine ⟨escapeChar a, hent, escapeHtml s, ?_⟩
          rw [h1, hpost]
          rfl
  · have := congrArg decodeEntities h
    rwa [hdec, hdec] at this

/-- Witness of C20: a string with all five characters, one of them inside
what looks like an entity. -/
theorem escapeHtml_neutralises_witness :
    escapeHtml "<a b=\"x\">&lt;it's</a>".toList
      = "&lt;a b=&quot;x&quot;&gt;&amp;lt;it&#039;s&lt;/a&gt;".toList ∧
    decodeEntities "&lt;a b=&quot;x&quot;&gt;&amp;lt;it&#039;s&lt;/a&gt;".toList
      = "<a b=\"x\">&lt;it's</a>".toList ∧
    ∃ e ∈ entities, ∃ rest, "&amp;lt;it&#039;s&lt;/a&gt;".toList = e ++ rest :=
  ⟨by decide,
   (congrArg decodeEntities (show
      "&lt;a b=&quot;x&quot;&gt;&amp;lt;it&#039;s&lt;/a&gt;".toList
        = escapeHtml "<a b=\"x\">&lt;it's</a>".toList by decide)).trans
     (escapeHtml_neutralises "<a b=\"x\">&lt;it's</a>".toList).2.2.1,
   (escapeHtml_neutralises "<a b=\"x\">&lt;it's</a>".toList).2.1
     "&lt;a b=&quot;x&quot;&gt;".toList "amp;lt;it&#039;s&lt;/a&gt;".toList (by decide)⟩

/-- Witness of C17: the address `a@b.co`, typed with a blank after it. -/
theorem isValidEmail_iff_witness : isValidEmail "a@b.co ".toList = true :=
  (isValidEmail_iff "a@b.co ".toList).mpr
    ⟨by decide, by decide, "a".toList, "b".toList, "co".toList, by decide, by decide,
     by decide, by decide⟩
end StudentRegistration
